import Mathlib

/-!
# Transaction-link generator: a shallow embedding and verification

This file embeds the behaviourally relevant parts of the
`Transaction-link-generator` web application in Lean 4 and proves (or
refutes) the specification claims about them.

Conventions of the embedding:

* JavaScript numbers that the program only ever uses as integers
  (timestamps, chain ids, nonces, gas values) are modelled as `Int` or
  `Nat`.  JavaScript strings are Lean `String`s.
* Asynchronous code is modelled as pure state passing: every network or
  SDK interaction is an oracle value supplied as input, and the order of
  interactions is recorded in an explicit event trace.
* `try/catch` becomes `Except String` (an exception is its user-facing
  message string), `null`/`undefined` become `Option`.
* Library calls whose result the program's control flow never inspects
  beyond success (keccak-based address checksumming, ICAP conversion)
  are abstracted as function parameters; every theorem below is
  independent of them (it holds for all instantiations).
-/

namespace TxLink

/-! ## JavaScript helpers

Small semantic helpers for JavaScript idioms used throughout the code:
string truthiness (`""` is falsy), `String.prototype.includes`,
`a || b` on possibly-undefined strings. -/

/-- JS truthiness of a possibly-undefined string: `undefined` (`none`)
and the empty string are falsy. -/
def truthyStr : Option String → Option String
  | none => none
  | some s => if s = "" then none else some s

/-- `a || b` where `a`, `b` are possibly-undefined strings: the left
operand if truthy, otherwise the right operand. -/
def jsOrStr (a b : Option String) : Option String :=
  match truthyStr a with
  | some s => some s
  | none => b

/-- Does `sub` occur as a contiguous run inside `l`?
(List-level model of `String.prototype.includes`.) -/
def listContains (sub : List Char) : List Char → Bool
  | [] => sub.isEmpty
  | c :: rest => sub.isPrefixOf (c :: rest) || listContains sub rest

/-- `s.includes(sub)` for JS strings. -/
def jsIncludes (s sub : String) : Bool :=
  listContains sub.data s.data

/-! ## Rate limiter  (`src/unnamed/part_001`, `src/unnamed/part_002`)

```ts
checkRateLimit(): boolean {
  const now = Date.now();
  const windowStart = now - this.config.windowMs;
  this.timestamps = this.timestamps.filter(t => t > windowStart);
  if (this.timestamps.length >= this.config.maxRequests) return false;
  this.timestamps.push(now);
  return true;
}
getRemainingRequests(): number {
  const now = Date.now();
  const windowStart = now - this.config.windowMs;
  this.timestamps = this.timestamps.filter(t => t > windowStart);
  return Math.max(0, this.config.maxRequests - this.timestamps.length);
}
```

The instance state is the recorded timestamp list; `Date.now()` is an
explicit `now` argument. -/

structure RateLimitConfig where
  maxRequests : Nat
  windowMs : Int
deriving Repr, DecidableEq

/-- The timestamps recorded by one `RateLimiter` instance. -/
abbrev RateLimiterState := List Int

/-- Timestamps surviving the pruning step at time `now`:
those strictly newer than `now - windowMs`. -/
def pruneWindow (cfg : RateLimitConfig) (st : RateLimiterState) (now : Int) :
    RateLimiterState :=
  st.filter (fun t => decide (now - cfg.windowMs < t))

/-- `checkRateLimit()`: returns the boolean and the updated timestamp list. -/
def checkRateLimit (cfg : RateLimitConfig) (st : RateLimiterState) (now : Int) :
    Bool × RateLimiterState :=
  let pruned := pruneWindow cfg st now
  if pruned.length ≥ cfg.maxRequests then
    (false, pruned)
  else
    (true, pruned ++ [now])

/-- `getRemainingRequests()`: returns `Math.max(0, maxRequests - count)`
and the (pruned) updated timestamp list. -/
def getRemainingRequests (cfg : RateLimitConfig) (st : RateLimiterState)
    (now : Int) : Int × RateLimiterState :=
  let pruned := pruneWindow cfg st now
  (max 0 ((cfg.maxRequests : Int) - pruned.length), pruned)

/-- The configuration of `defaultRateLimiter`: 10 requests per 60,000 ms. -/
def defaultRateLimitConfig : RateLimitConfig :=
  { maxRequests := 10, windowMs := 60000 }

/-- Run a sequence of `checkRateLimit` calls at the given times, from a
starting state, collecting each call's boolean result. -/
def runRateLimitCalls (cfg : RateLimitConfig) :
    RateLimiterState → List Int → List Bool × RateLimiterState
  | st, [] => ([], st)
  | st, t :: ts =>
      let (b, st') := checkRateLimit cfg st t
      let (bs, st'') := runRateLimitCalls cfg st' ts
      (b :: bs, st'')

/-! ## Transaction data model  (`src/src/types/index.ts`) -/

/-- `AbiParameter`: a function input/output; `components` describes
struct members and is absent (`none`) for elementary types. -/
inductive AbiParameter where
  | mk (name : String) (type : String) (components : Option (List AbiParameter))

/-- Parameter name. -/
def AbiParameter.name : AbiParameter → String
  | .mk n _ _ => n

/-- Solidity type of the parameter. -/
def AbiParameter.type : AbiParameter → String
  | .mk _ t _ => t

/-- Nested struct components, when present. -/
def AbiParameter.components : AbiParameter → Option (List AbiParameter)
  | .mk _ _ c => c

/-- `AbiFunction`: one ABI entry. -/
structure AbiFunction where
  name : String
  type : String
  stateMutability : Option String
  inputs : List AbiParameter
  outputs : Option (List AbiParameter)

/-- `TransactionDetails`: everything needed to execute one contract
call.  Optional fields are `Option`; `functionParams` values are left
abstract here (`paramKind`) and refined to JSON values where the URL
codec needs them. -/
structure TransactionDetails (paramKind : Type) where
  contractAddress : String
  abi : List AbiFunction
  chainId : Int
  rpcUrl : String
  functionName : String
  functionParams : List paramKind
  value : Option String
  email : Option String

/-- `SavedTransaction`: a stored link target. -/
structure SavedTransaction (paramKind : Type) where
  id : String
  transactionDetails : TransactionDetails paramKind
  createdAt : String
  description : Option String

/-! ## Address and value validation  (`src/src/utils/validation.ts`)

`validateTransactionDetails` delegates the address check to ethers v5
`ethers.utils.isAddress`, whose `getAddress` accepts
`/^(0x)?[0-9a-fA-F]{40}$/` (the `0x` prefix is optional, and a missing
prefix is silently added), validates the EIP-55 checksum only when an
uppercase hex letter is present, and alternatively accepts ICAP
addresses `/^XE[0-9]{2}[0-9A-Za-z]{30,31}$/`.  The keccak-based
checksum computation and the ICAP base-36 conversion are abstracted as
the parameters `cks` and `icap`; no theorem below depends on their
values. -/

/-- A hexadecimal digit, either case. -/
def isHexDigitChar (c : Char) : Bool :=
  ('0' ≤ c && c ≤ '9') || ('a' ≤ c && c ≤ 'f') || ('A' ≤ c && c ≤ 'F')

/-- `/^(0x)?[0-9a-fA-F]{40}$/` on the character list. -/
def matchesHex40 (cs : List Char) : Bool :=
  let body := if cs.take 2 = ['0', 'x'] then cs.drop 2 else cs
  body.length = 40 && body.all isHexDigitChar

/-- A base-36 alphanumeric character (either case). -/
def isAlnumChar (c : Char) : Bool :=
  ('0' ≤ c && c ≤ '9') || ('a' ≤ c && c ≤ 'z') || ('A' ≤ c && c ≤ 'Z')

/-- `/^XE[0-9]{2}[0-9A-Za-z]{30,31}$/` on the character list. -/
def matchesIcap (cs : List Char) : Bool :=
  match cs with
  | 'X' :: 'E' :: d1 :: d2 :: rest =>
      ('0' ≤ d1 && d1 ≤ '9') && ('0' ≤ d2 && d2 ≤ '9') &&
        (rest.length = 30 || rest.length = 31) && rest.all isAlnumChar
  | _ => false

/-- Any uppercase hex letter present (ethers' `/([A-F])/` test that
decides whether the checksum must be validated)? -/
def hasUpperHexLetter (cs : List Char) : Bool :=
  cs.any (fun c => 'A' ≤ c && c ≤ 'F')

/-- ethers v5 `getAddress`.  `cks` abstracts `getChecksumAddress`
(keccak-based), `icap` abstracts the ICAP branch's conversion-plus-
checksum (returning `none` when the IBAN checksum fails). -/
def getAddressModel (cks : String → String) (icap : String → Option String)
    (address : String) : Option String :=
  let cs := address.data
  if matchesHex40 cs then
    let addr := if cs.take 2 = ['0', 'x'] then address else "0x" ++ address
    let result := cks addr
    if hasUpperHexLetter addr.data && result ≠ addr then none else some result
  else if matchesIcap cs then
    icap address
  else
    none

/-- ethers v5 `isAddress`: `getAddress` did not throw. -/
def isAddressModel (cks : String → String) (icap : String → Option String)
    (address : String) : Bool :=
  (getAddressModel cks icap address).isSome

/-- Decimal value of a digit list (most significant first). -/
def digitsToNat (ds : List Char) : Nat :=
  ds.foldl (fun acc c => acc * 10 + (c.toNat - '0'.toNat)) 0

/-- A decimal digit. -/
def isDecDigit (c : Char) : Bool := '0' ≤ c && c ≤ '9'

/-- ethers v5 `parseEther(value) = parseFixed(value, 18)`, returning the
wei amount, or `none` where the library throws: input not matching
`/^-?[0-9.]+$/`, more than one decimal point, or more than 18
fractional digits. -/
def parseEtherModel (v : String) : Option Int :=
  let cs := v.data
  let (neg, body) := match cs with
    | '-' :: rest => (true, rest)
    | rest => (false, rest)
  if body.isEmpty || !body.all (fun c => isDecDigit c || c = '.') then
    none
  else
    let comps := body.splitOn '.'
    match comps with
    | [wholeDs] =>
        some ((if neg then -1 else 1) * (digitsToNat wholeDs * 10 ^ 18 : Nat))
    | [wholeDs, fracDs] =>
        if fracDs.length > 18 then none
        else
          let frac := digitsToNat fracDs * 10 ^ (18 - fracDs.length)
          some ((if neg then -1 else 1) * ((digitsToNat wholeDs * 10 ^ 18 + frac : Nat) : Int))
    | _ => none

/-- `/^[a-zA-Z_][a-zA-Z0-9_]*$/`: the function-name identifier pattern. -/
def isIdentStart (c : Char) : Bool :=
  ('a' ≤ c && c ≤ 'z') || ('A' ≤ c && c ≤ 'Z') || c = '_'

/-- An identifier-continuation character. -/
def isIdentCont (c : Char) : Bool :=
  isIdentStart c || ('0' ≤ c && c ≤ '9')

/-- Whole-string match of the identifier pattern. -/
def matchesIdent : List Char → Bool
  | [] => false
  | c :: rest => isIdentStart c && rest.all isIdentCont

/-- The result record of `validateTransactionDetails`. -/
structure ValidationResult where
  isValid : Bool
  errors : List String
deriving Repr, DecidableEq

/-- `validateTransactionDetails` (lines 18-69).  Checks accumulate into
`errors`; `isValid` holds iff no error accumulated.  The
`Array.isArray(details.functionParams)` check cannot fail in this typed
embedding (`functionParams` is a list by construction) and contributes
no error; the `Array.isArray(details.abi)` check reduces to the
emptiness test for the same reason. -/
def validateTransactionDetails {p : Type}
    (cks : String → String) (icap : String → Option String)
    (details : TransactionDetails p) : ValidationResult :=
  let addressErrs :=
    if details.contractAddress = ""
        || !isAddressModel cks icap details.contractAddress then
      ["Invalid contract address"] else []
  let chainErrs :=
    if details.chainId = 0 || details.chainId ≤ 0 then
      ["Invalid chain ID"] else []
  let fnNameErrs :=
    if details.functionName = "" || !matchesIdent details.functionName.data then
      ["Invalid function name"] else []
  let abiErrs :=
    if details.abi.isEmpty then ["Invalid ABI"] else []
  let valueErrs :=
    match truthyStr details.value with
    | none => []
    | some v =>
        match parseEtherModel v with
        | none => ["Invalid transaction value"]
        | some wei =>
            (if wei ≤ 0 then ["Transaction value must be greater than 0"] else [])
              ++ (if wei > 1000 * 10 ^ 18 then
                    ["Transaction value exceeds maximum allowed"] else [])
  let errors := addressErrs ++ chainErrs ++ fnNameErrs ++ abiErrs ++ valueErrs
  { isValid := errors.isEmpty, errors := errors }

/-! ## Contract-code validation  (`src/src/utils/validation.ts` 82-114) -/

/-- The result record of `validateContractCode`. -/
structure CodeValidation where
  isValid : Bool
  error : Option String
deriving Repr, DecidableEq

/-- The blocklist the code scans bytecode for. -/
def maliciousPatterns : List String := ["0x6080604052"]

/-- `validateContractCode`: the argument is the outcome of
`provider.getCode(contractAddress)` (`.error` = the RPC call threw). -/
def validateContractCode (code : Except Unit String) : CodeValidation :=
  match code with
  | .error _ => { isValid := false, error := some "Failed to validate contract code" }
  | .ok code =>
      if code = "0x" then
        { isValid := false, error := some "Contract not deployed at this address" }
      else if maliciousPatterns.any (fun p => jsIncludes code p) then
        { isValid := false, error := some "Potentially malicious contract code detected" }
      else
        { isValid := true, error := none }

/-! ## Transaction store  (`src/src/services/transactionService.ts`)

The `localStorage` key `'transactions'` holds a JSON array; it is
modelled as the list of saved records.  `generateTransactionId` (a
`Math.random()` product) and `new Date().toISOString()` are oracle
arguments. -/

/-- `saveTransaction`: appends a fresh record and returns its id. -/
def saveTransaction {p : Type} (store : List (SavedTransaction p))
    (genId nowIso : String) (details : TransactionDetails p)
    (description : Option String) : String × List (SavedTransaction p) :=
  (genId, store ++ [{ id := genId, transactionDetails := details,
                      createdAt := nowIso, description := description }])

/-- `getTransaction`: first record with the id, or `null`. -/
def getTransaction {p : Type} (store : List (SavedTransaction p))
    (id : String) : Option (SavedTransaction p) :=
  store.find? (fun tx => tx.id == id)

/-! ## MetaKeep SDK values and errors

The SDK is duck-typed: a call may resolve to a string, an object with
optional `transactionHash` / `hash` / `emailSent` / `status` fields, or
nothing; a rejected call throws an `Error` or a bare status object. -/

/-- A resolved SDK call value. -/
inductive SdkResult where
  | jstr (s : String)
  | jobj (transactionHash : Option String) (hash : Option String)
      (emailSent : Bool) (status : Option String)
  | jnull
deriving Repr, DecidableEq

/-- `result?.transactionHash` (undefined on strings and null). -/
def SdkResult.transactionHashField : SdkResult → Option String
  | .jobj th _ _ _ => th
  | _ => none

/-- `result?.hash`. -/
def SdkResult.hashField : SdkResult → Option String
  | .jobj _ h _ _ => h
  | _ => none

/-- `typeof result === 'string' ? result : null`. -/
def SdkResult.stringSelf : SdkResult → Option String
  | .jstr s => some s
  | _ => none

/-- `result?.emailSent` coerced to boolean. -/
def SdkResult.emailSentField : SdkResult → Bool
  | .jobj _ _ e _ => e
  | _ => false

/-- `result?.status`. -/
def SdkResult.statusField : SdkResult → Option String
  | .jobj _ _ _ st => st
  | _ => none

/-- `result?.transactionHash || result?.hash || (typeof result ===
'string' ? result : null)`, then the truthiness test `if (hash)`. -/
def hashTxFirst (r : SdkResult) : Option String :=
  truthyStr (jsOrStr r.transactionHashField (jsOrStr r.hashField r.stringSelf))

/-- `typeof result === 'string' ? result : result?.transactionHash ||
result?.hash`, then `if (hash)`. -/
def hashStrFirst (r : SdkResult) : Option String :=
  truthyStr (jsOrStr r.stringSelf (jsOrStr r.transactionHashField r.hashField))

/-- `signResult?.hash || signResult?.transactionHash || (typeof
signResult === 'string' ? signResult : null)`, then `if (hash)`. -/
def hashHashFirst (r : SdkResult) : Option String :=
  truthyStr (jsOrStr r.hashField (jsOrStr r.transactionHashField r.stringSelf))

/-- A thrown SDK value: an `Error` instance (`isError`), a plain object
(`isObject`, possibly carrying `status` / `code`), or a primitive.
`jsonRepr` is `JSON.stringify(e)` (`none` when stringification throws),
`strRepr` is `String(e)`. -/
structure JsError where
  isError : Bool
  isObject : Bool
  message : Option String
  status : Option String
  code : Option String
  jsonRepr : Option String
  strRepr : String
deriving Repr, DecidableEq

/-- `e.message || String(e)`: the per-error display text used in the
aggregate failure message. -/
def JsError.displayMsg (e : JsError) : String :=
  match truthyStr e.message with
  | some m => m
  | none => e.strRepr

/-- The `Error` our own code throws with message `m`. -/
def errorOf (m : String) : JsError :=
  { isError := true, isObject := true, message := some m, status := none,
    code := none, jsonRepr := none, strRepr := "Error: " ++ m }

/-- `` `All transaction methods failed: ${errors.map(e => e.message ||
String(e)).join('; ')}` ``. -/
def aggregateFailMsg (errs : List JsError) : String :=
  "All transaction methods failed: "
    ++ String.intercalate "; " (errs.map JsError.displayMsg)

/-! ## Signing cascade of the basic hook  (`useMetaKeepTransaction.ts`
lines 137-181)

The basic (first) version of `execute` tries, in order: the object form
`signTransaction({transactionObject, reason})`, the positional form
`signTransaction(txParams, accountAddress)`, and `sendTransaction
(txParams)`; the first usable hash is returned immediately, errors of
throwing attempts are collected, and if no attempt yields a hash the
aggregate error is thrown. -/

/-- The three SDK call shapes, in source order. -/
inductive SignMethod where
  | objForm
  | positional
  | sendTx
deriving Repr, DecidableEq

/-- The outcomes of the three shape attempts (oracles for the three
`await` calls). -/
structure SignEnv where
  objForm : Except JsError SdkResult
  positional : Except JsError SdkResult
  sendTx : Except JsError SdkResult

/-- Method 3 (`sendTransaction(txParams)`), reached only when neither
earlier shape yielded a hash; `errs` are the collected errors so far. -/
def signFrom3 (env : SignEnv) (errs : List JsError) : Except String String :=
  match env.sendTx with
  | .ok r =>
      match hashStrFirst r with
      | some h => .ok h
      | none => .error (aggregateFailMsg errs)
  | .error e3 => .error (aggregateFailMsg (errs ++ [e3]))

/-- Methods 2-3, with the methods attempted from here on. -/
def signFrom2 (env : SignEnv) (errs : List JsError) :
    Except String String × List SignMethod :=
  match env.positional with
  | .ok r =>
      match hashStrFirst r with
      | some h => (.ok h, [.positional])
      | none => (signFrom3 env errs, [.positional, .sendTx])
  | .error e2 => (signFrom3 env (errs ++ [e2]), [.positional, .sendTx])

/-- The whole cascade: result and the list of shapes attempted. -/
def signCascade (env : SignEnv) : Except String String × List SignMethod :=
  match env.objForm with
  | .ok r =>
      match hashTxFirst r with
      | some h => (.ok h, [.objForm])
      | none =>
          let (res, tr) := signFrom2 env []
          (res, .objForm :: tr)
  | .error e1 =>
      let (res, tr) := signFrom2 env [e1]
      (res, .objForm :: tr)

/-- The usable hash of method 1, if any (`none` when the call threw or
returned no truthy hash). -/
def usableObjForm (env : SignEnv) : Option String :=
  match env.objForm with
  | .ok r => hashTxFirst r
  | .error _ => none

/-- The usable hash of method 2, if any. -/
def usablePositional (env : SignEnv) : Option String :=
  match env.positional with
  | .ok r => hashStrFirst r
  | .error _ => none

/-- The usable hash of method 3, if any. -/
def usableSendTx (env : SignEnv) : Option String :=
  match env.sendTx with
  | .ok r => hashStrFirst r
  | .error _ => none

/-- The errors of the throwing attempts, in attempt order. -/
def collectedErrors (env : SignEnv) : List JsError :=
  (match env.objForm with | .error e => [e] | .ok _ => [])
    ++ (match env.positional with | .error e => [e] | .ok _ => [])
    ++ (match env.sendTx with | .error e => [e] | .ok _ => [])

/-! ## Fallback providers and verification polling
(`useMetaKeepTransaction.ts` lines 1025-1135)

`verifyTransactionWithRetry` builds a provider list (the selected
provider plus the deduplicated chain-specific fallback URLs), then polls
up to 5 attempts; per attempt every provider is queried (in parallel via
`Promise.all`, which joins to the disjunction of the per-provider
booleans), and between attempts it sleeps `attempt * 5000` ms. -/

/-- The chain-id-keyed fallback RPC URL table. -/
def fallbackProviderUrls (chainId : Int) : List String :=
  if chainId = 80002 then
    ["https://rpc-amoy.polygon.technology/",
     "https://polygon-amoy-rpc.publicnode.com",
     "https://polygon-amoy.blockpi.network/v1/rpc/public",
     "https://api.zan.top/node/v1/polygon/amoy/public",
     "https://polygon-amoy.drpc.org",
     "https://polygon-amoy.g.alchemy.com/v2/demo"]
  else if chainId = 137 then
    ["https://polygon-rpc.com",
     "https://polygon-mainnet.g.alchemy.com/v2/demo",
     "https://polygon.meowrpc.com",
     "https://polygon.drpc.org",
     "https://polygon.llamarpc.com",
     "https://rpc-mainnet.maticvigil.com"]
  else if chainId = 1 then
    ["https://eth-mainnet.g.alchemy.com/v2/demo",
     "https://1rpc.io/eth",
     "https://ethereum.publicnode.com",
     "https://rpc.ankr.com/eth",
     "https://eth.meowrpc.com",
     "https://eth.llamarpc.com"]
  else []

/-- The provider pool polled per attempt, each provider denoted by its
URL; the selected provider comes first (`""` stands for a primary
provider without a known URL).  Mirrors lines 1069-1096: collect
`[rpcUrl, ...fallbacks]`, drop empties, deduplicate preserving first
occurrence (`new Set`), then skip the primary's own URL. -/
def verifyProviderPool (primaryUrl : String) (chainId : Int) : List String :=
  let allUrls := ([primaryUrl] ++ fallbackProviderUrls chainId).filter (fun u => u ≠ "")
  let uniqueUrls := allUrls.eraseDups
  primaryUrl :: uniqueUrls.filter (fun u => !(u = "" || (primaryUrl ≠ "" && u = primaryUrl)))

/-- The polling loop from attempt number `attempt` with `remaining`
attempts left: returns (found?, attempts made, delays slept).
`oracle a u` answers whether provider `u` reports the hash during
attempt `a` (subsuming the `getTransaction` / `getTransactionReceipt`
pair of `checkTransactionStatus`, whose failures count as `false`). -/
def verifyLoop (oracle : Nat → String → Bool) (pool : List String) :
    Nat → Nat → Bool × Nat × List Nat
  | _, 0 => (false, 0, [])
  | attempt, remaining + 1 =>
      if pool.any (fun u => oracle attempt u) then
        (true, 1, [])
      else if remaining = 0 then
        (false, 1, [])
      else
        let (f, k, ds) := verifyLoop oracle pool (attempt + 1) remaining
        (f, k + 1, attempt * 5000 :: ds)

/-- `verifyTransactionWithRetry`: placeholder and empty hashes short-
circuit to `false` with no polling; otherwise up to 5 attempts run. -/
def verifyTransactionWithRetry (oracle : Nat → String → Bool)
    (primaryUrl : String) (chainId : Int) (hash : String) :
    Bool × Nat × List Nat :=
  if hash = "" || hash = "email-verification-pending" then (false, 0, [])
  else verifyLoop oracle (verifyProviderPool primaryUrl chainId) 1 5

/-! ## The full `execute`  (`useMetaKeepTransaction.ts` lines 379-867)

Modelled as a pure function of the wallet context, an oracle
environment for every awaited interaction, the rate-limiter state and
the clock.  The returned trace records the interaction order. -/

/-- A network interaction issued by `execute`. -/
inductive NetOp where
  | providerProbe
  | contractCodeFetch
  | gasEstimate
  | balanceFetch
  | nonceFetch
  | verifyPoll
deriving Repr, DecidableEq

/-- An SDK interaction issued by `execute`. -/
inductive SdkOp where
  | chainOps
  | signEmail1
  | signEmail2
  | signPlain1
  | signPlain2
  | sendTxMethod
deriving Repr, DecidableEq

/-- One trace event of `execute`.  `monitorSpawn` marks the fire-and-
forget start of background `monitorTransaction` polling. -/
inductive Ev where
  | rateCheck
  | net (op : NetOp)
  | sdk (op : SdkOp)
  | monitorSpawn
deriving Repr, DecidableEq

/-- Is the event a network interaction? -/
def Ev.isNet : Ev → Bool
  | .net _ => true
  | _ => false

/-- The wallet context read from `useMetaKeep()`. -/
structure WalletCtx where
  metaKeepPresent : Bool
  accountAddress : Option String
deriving Repr, DecidableEq

/-- Hex digit character (lowercase), for `ethers.utils.hexlify`. -/
def hexDigitChar (n : Nat) : Char :=
  if n < 10 then Char.ofNat ('0'.toNat + n) else Char.ofNat ('a'.toNat + (n - 10))

/-- Hexadecimal digits of `n`, most significant first (empty for 0). -/
def natHexChars (n : Nat) : List Char :=
  if n = 0 then []
  else natHexChars (n / 16) ++ [hexDigitChar (n % 16)]
decreasing_by exact Nat.div_lt_self (Nat.pos_of_ne_zero (by assumption)) (by omega)

/-- `ethers.utils.hexlify` on a number: `"0x00"` for 0, otherwise
`"0x"` plus the digits padded to even length. -/
def hexlifyNat (n : Nat) : String :=
  let hex := natHexChars n
  if hex.isEmpty then "0x00"
  else if hex.length % 2 = 1 then "0x0" ++ String.mk hex
  else "0x" ++ String.mk hex

/-- The transaction object assembled for the SDK (lines 529-546). -/
structure TxParams where
  type : Nat
  toAddr : String
  data : String
  fromAddr : String
  nonce : String
  gas : Nat
  chainId : Int
  maxFeePerGas : Nat
  maxPriorityFeePerGas : Nat
  value : Option Int
deriving Repr, DecidableEq

/-- All oracle outcomes `execute` may consume, one per awaited
interaction. -/
structure ExecEnv where
  /-- Did `getWorkingProvider` find a live provider? -/
  providerFound : Bool
  /-- `provider.connection.url` of the provider that answered. -/
  workingUrl : String
  /-- `provider.getCode(contractAddress)`. -/
  getCode : Except Unit String
  /-- `provider.estimateGas(...)`: the gas number, or the thrown
  message. -/
  estimateGas : Except String Nat
  /-- `checkBalanceForGas(...)` after `fetchBalance()`. -/
  balanceOk : Bool
  /-- `provider.getTransactionCount(accountAddress)`. -/
  getNonce : Except Unit Nat
  /-- `new ethers.utils.Interface(abi)` + `encodeFunctionData(...)`:
  call data, or the thrown message. -/
  encodeData : Except String String
  /-- `signTransaction(txObject, "Transfer")` (email path, attempt 1). -/
  emailSign1 : Except JsError SdkResult
  /-- `signTransaction(txParams, "Transfer")` (email path, attempt 2). -/
  emailSign2 : Except JsError SdkResult
  /-- `signTransaction(txParams, "Transfer")` (no-email method 1). -/
  plainSign1 : Except JsError SdkResult
  /-- `signTransaction(txParams, accountAddress)` (no-email method 2). -/
  plainSign2 : Except JsError SdkResult
  /-- `sendTransaction(txParams)` (no-email method 3). -/
  plainSend : Except JsError SdkResult
  /-- Per (attempt, provider URL): does the provider report the hash? -/
  verifyFound : Nat → String → Bool

/-- `rpcUrl || 'https://polygon-rpc.com'`. -/
def effectiveRpcUrl {p : Type} (d : TransactionDetails p) : String :=
  match truthyStr (some d.rpcUrl) with
  | some u => u
  | none => "https://polygon-rpc.com"

/-- `signResult?.emailSent || status === "EMAIL_VERIFICATION_SENT" ||
status === "EMAIL_SENT"`. -/
def emailWasSent (r : SdkResult) : Bool :=
  r.emailSentField || r.statusField = some "EMAIL_VERIFICATION_SENT"
    || r.statusField = some "EMAIL_SENT"

/-- Line 610 message (verify failed although the email went out). -/
def emailSentButNotFoundMsg : String :=
  "Email verification was completed successfully, but the transaction was not found on the blockchain. This is usually a temporary issue with the network rather than a problem with your wallet."

/-- Lines 612/654/742/777/812 message (hash not found on chain). -/
def notBroadcastMsg : String :=
  "Transaction may have failed to broadcast. The hash returned by MetaKeep was not found on the blockchain."

/-- Line 630 message (no hash, no email confirmation). -/
def unclearResponseMsg : String :=
  "Transaction initiation didn\u0027t receive a clear response from MetaKeep. Please check your email for potential verification requests."

/-- Lines 760/795/830 message (SDK security rejection). -/
def securityRejectionMsg : String :=
  "Security check: This transaction was flagged by MetaKeep\u0027s security system. If you trust this contract, try again and confirm in the MetaKeep interface."

/-- The literal placeholder resolved when only a verification email went
out. -/
def placeholderHash : String := "email-verification-pending"

/-- A value caught in the email path: either the SDK's thrown value or
an `Error` our own code threw with the given message. -/
inductive Thrown where
  | jsErr (e : JsError)
  | errMsg (m : String)
deriving Repr, DecidableEq

/-- Lines 672-691: format `mainErr` and wrap it into the
`Transaction execution failed:` / `Transaction failed:` throw. -/
def throwFromMainErr : Thrown → String
  | .errMsg m => "Transaction execution failed: " ++ m
  | .jsErr e =>
      if e.isError then
        "Transaction execution failed: " ++ e.message.getD ""
      else if e.isObject then
        if e.status = some "INVALID_REASON" then
          "Transaction failed: The MetaKeep service requires a valid transaction reason"
        else
          "Transaction execution failed: "
            ++ (match e.jsonRepr with
                | some j => j
                | none => "Unknown error format")
      else
        "Transaction execution failed: " ++ e.strRepr

/-- `err.message?.includes("malicious") || err.message?.includes
("security") || err.code === "SECURITY_WARNING"`. -/
def securityFlagged (e : JsError) : Bool :=
  (match e.message with
   | some m => jsIncludes m "malicious" || jsIncludes m "security"
   | none => false)
    || e.code = some "SECURITY_WARNING"

/-- `n` verification-poll events. -/
def verifyEvents (n : Nat) : List Ev :=
  List.replicate n (.net .verifyPoll)

/-- Email path, second attempt (lines 637-692), entered with the first
attempt's caught `mainErr`; a failure here is wrapped by the outer
`catch (emailErr)` into `Email verification failed: …`. -/
def emailSecond (env : ExecEnv) (chainId : Int) (mainErr : Thrown)
    (evs : List Ev) : Except String String × List Ev :=
  match env.emailSign2 with
  | .ok r =>
      match hashHashFirst r with
      | some h =>
          let (found, att, _) :=
            verifyTransactionWithRetry env.verifyFound env.workingUrl chainId h
          if found then
            (.ok h, evs ++ [.sdk .signEmail2] ++ verifyEvents att ++ [.monitorSpawn])
          else
            (.error ("Email verification failed: " ++ throwFromMainErr mainErr),
             evs ++ [.sdk .signEmail2] ++ verifyEvents att)
      | none => (.ok placeholderHash, evs ++ [.sdk .signEmail2])
  | .error _ =>
      (.error ("Email verification failed: " ++ throwFromMainErr mainErr),
       evs ++ [.sdk .signEmail2])

/-- Email path (lines 551-718).  A throw inside the first attempt —
including a failed on-chain verification — is caught by
`catch (mainErr)` and falls through to the second attempt. -/
def emailFlow (env : ExecEnv) (chainId : Int) :
    Except String String × List Ev :=
  match env.emailSign1 with
  | .ok r =>
      let sent := emailWasSent r
      match hashHashFirst r with
      | some h =>
          let (found, att, _) :=
            verifyTransactionWithRetry env.verifyFound env.workingUrl chainId h
          if found then
            (.ok h, [.sdk .signEmail1] ++ verifyEvents att ++ [.monitorSpawn])
          else
            emailSecond env chainId
              (.errMsg (if sent then emailSentButNotFoundMsg else notBroadcastMsg))
              ([.sdk .signEmail1] ++ verifyEvents att)
      | none =>
          if sent then (.ok placeholderHash, [.sdk .signEmail1])
          else emailSecond env chainId (.errMsg unclearResponseMsg) [.sdk .signEmail1]
  | .error e => emailSecond env chainId (.jsErr e) [.sdk .signEmail1]

/-- No-email method 3 (lines 799-832) plus the aggregate throw (line
835). -/
def plainStep3 (env : ExecEnv) (chainId : Int) (errs : List JsError)
    (evs : List Ev) : Except String String × List Ev :=
  match env.plainSend with
  | .ok r =>
      match hashStrFirst r with
      | some h =>
          let (found, att, _) :=
            verifyTransactionWithRetry env.verifyFound env.workingUrl chainId h
          if found then
            (.ok h, evs ++ [.sdk .sendTxMethod] ++ verifyEvents att ++ [.monitorSpawn])
          else
            let e := errorOf notBroadcastMsg
            if securityFlagged e then
              (.error securityRejectionMsg,
               evs ++ [.sdk .sendTxMethod] ++ verifyEvents att)
            else
              (.error (aggregateFailMsg (errs ++ [e])),
               evs ++ [.sdk .sendTxMethod] ++ verifyEvents att)
      | none => (.error (aggregateFailMsg errs), evs ++ [.sdk .sendTxMethod])
  | .error e =>
      if securityFlagged e then
        (.error securityRejectionMsg, evs ++ [.sdk .sendTxMethod])
      else
        (.error (aggregateFailMsg (errs ++ [e])), evs ++ [.sdk .sendTxMethod])

/-- No-email method 2 (lines 764-797). -/
def plainStep2 (env : ExecEnv) (chainId : Int) (errs : List JsError)
    (evs : List Ev) : Except String String × List Ev :=
  match env.plainSign2 with
  | .ok r =>
      match hashStrFirst r with
      | some h =>
          let (found, att, _) :=
            verifyTransactionWithRetry env.verifyFound env.workingUrl chainId h
          if found then
            (.ok h, evs ++ [.sdk .signPlain2] ++ verifyEvents att ++ [.monitorSpawn])
          else
            let e := errorOf notBroadcastMsg
            if securityFlagged e then
              (.error securityRejectionMsg,
               evs ++ [.sdk .signPlain2] ++ verifyEvents att)
            else
              plainStep3 env chainId (errs ++ [e])
                (evs ++ [.sdk .signPlain2] ++ verifyEvents att)
      | none => plainStep3 env chainId errs (evs ++ [.sdk .signPlain2])
  | .error e =>
      if securityFlagged e then
        (.error securityRejectionMsg, evs ++ [.sdk .signPlain2])
      else
        plainStep3 env chainId (errs ++ [e]) (evs ++ [.sdk .signPlain2])

/-- No-email method 1 (lines 724-762).  A failed verification throws
inside the `try`, so its error is collected by `catch (err1)` and the
cascade continues. -/
def plainFlow (env : ExecEnv) (chainId : Int) :
    Except String String × List Ev :=
  match env.plainSign1 with
  | .ok r =>
      match hashTxFirst r with
      | some h =>
          let (found, att, _) :=
            verifyTransactionWithRetry env.verifyFound env.workingUrl chainId h
          if found then
            (.ok h, [.sdk .signPlain1] ++ verifyEvents att ++ [.monitorSpawn])
          else
            let e := errorOf notBroadcastMsg
            if securityFlagged e then
              (.error securityRejectionMsg,
               [.sdk .signPlain1] ++ verifyEvents att)
            else
              plainStep2 env chainId [e] ([.sdk .signPlain1] ++ verifyEvents att)
      | none => plainStep2 env chainId [] [.sdk .signPlain1]
  | .error e =>
      if securityFlagged e then
        (.error securityRejectionMsg, [.sdk .signPlain1])
      else
        plainStep2 env chainId [e] [.sdk .signPlain1]

/-- The outcome of one `execute` call. -/
structure ExecOutcome where
  result : Except String String
  trace : List Ev
  limiter : RateLimiterState
  txParams : Option TxParams
deriving Repr

/-- The full `execute` (lines 379-867).  Stage order as in the source:
connection guards, rate limit, input validation, provider selection,
contract-code check, call-data encoding, gas estimation + balance,
nonce, chain operations, transaction
object, then the email or no-email signing flow. -/
def executeTx {p : Type} (cks : String → String)
    (icap : String → Option String) (wallet : WalletCtx) (env : ExecEnv)
    (details : TransactionDetails p) (limiter : RateLimiterState)
    (now : Int) : ExecOutcome :=
  if !wallet.metaKeepPresent then
    { result := .error "MetaKeep SDK not initialized", trace := [],
      limiter := limiter, txParams := none }
  else
    match truthyStr wallet.accountAddress with
    | none =>
        { result := .error "Wallet address not available - please reconnect",
          trace := [], limiter := limiter, txParams := none }
    | some fromAddr =>
        let (allowed, limiter') :=
          checkRateLimit defaultRateLimitConfig limiter now
        if !allowed then
          { result := .error "Rate limit exceeded. Maximum 10 transactions per minute allowed.",
            trace := [.rateCheck], limiter := limiter', txParams := none }
        else
          let v := validateTransactionDetails cks icap details
          if !v.isValid then
            { result := .error ("Invalid transaction: "
                ++ String.intercalate ", " v.errors),
              trace := [.rateCheck], limiter := limiter', txParams := none }
          else if !env.providerFound then
            { result := .error "Network detection failed. Could not connect to any RPC provider for this chain. Please check your internet connection or try again later.",
              trace := [.rateCheck, .net .providerProbe], limiter := limiter',
              txParams := none }
          else
            let cv := validateContractCode env.getCode
            if !cv.isValid then
              { result := .error ((truthyStr cv.error).getD "Invalid contract"),
                trace := [.rateCheck, .net .providerProbe, .net .contractCodeFetch],
                limiter := limiter', txParams := none }
            else
              match env.encodeData with
              | .error m =>
                  { result := .error m,
                    trace := [.rateCheck, .net .providerProbe, .net .contractCodeFetch],
                    limiter := limiter', txParams := none }
              | .ok callData =>
                  let gasResult : Option String × List Ev :=
                    match env.estimateGas with
                    | .ok _ =>
                        if env.balanceOk then
                          (none, [.net .gasEstimate, .net .balanceFetch])
                        else
                          (some "Insufficient balance to cover gas fees. Please add more AMOY to your wallet.",
                           [.net .gasEstimate, .net .balanceFetch])
                    | .error m =>
                        if jsIncludes m "Insufficient balance" then
                          (some m, [.net .gasEstimate])
                        else (none, [.net .gasEstimate])
                  let evs0 := [Ev.rateCheck, .net .providerProbe,
                    .net .contractCodeFetch] ++ gasResult.2
                  match gasResult.1 with
                  | some m =>
                      { result := .error m, trace := evs0, limiter := limiter',
                        txParams := none }
                  | none =>
                      let nonceStr :=
                        match env.getNonce with
                        | .ok n => hexlifyNat n
                        | .error _ => "0x1"
                      let txParams : TxParams :=
                        { type := 2, toAddr := details.contractAddress,
                          data := callData, fromAddr := fromAddr,
                          nonce := nonceStr, gas := 21000,
                          chainId := details.chainId, maxFeePerGas := 1000,
                          maxPriorityFeePerGas := 999,
                          value := (truthyStr details.value).bind parseEtherModel }
                      let evs1 := evs0 ++ [Ev.net .nonceFetch, .sdk .chainOps]
                      let flow :=
                        match truthyStr details.email with
                        | some _ => emailFlow env details.chainId
                        | none => plainFlow env details.chainId
                      { result := flow.1, trace := evs1 ++ flow.2,
                        limiter := limiter', txParams := some txParams }

/-- A sequence of `execute` calls on one hook instance (shared default
rate limiter), at the given call times. -/
def executeSeq {p : Type} (cks : String → String)
    (icap : String → Option String) (wallet : WalletCtx) (env : ExecEnv)
    (details : TransactionDetails p) :
    RateLimiterState → List Int → List ExecOutcome × RateLimiterState
  | st, [] => ([], st)
  | st, t :: ts =>
      let o := executeTx cks icap wallet env details st t
      let (os, st') := executeSeq cks icap wallet env details o.limiter ts
      (o :: os, st')

/-! ## JSON values and `JSON.stringify`

The link codec serializes the transaction descriptor with
`JSON.stringify`, embeds it URL-encoded in the `data` query parameter,
and the execution page recovers it with `URLSearchParams.get`,
`decodeURIComponent` and `JSON.parse`.  The ECMAScript built-ins are
modelled on the exact-integer fragment of JSON: every number is an
integer (as `chainId` and integer parameters are; IEEE-754 doubles
print such values, up to 2^53, as plain decimal numerals). -/

/-- A JSON value (numbers restricted to integers). -/
inductive Json where
  | jnull
  | jbool (b : Bool)
  | jnum (n : Int)
  | jstr (s : String)
  | jarr (items : List Json)
  | jobj (fields : List (String × Json))
deriving Repr

/-- One character of a JSON-quoted string, per `QuoteJSONString`:
`"` and `\` get a backslash, the named C0 escapes are used where they
exist, remaining control characters become `\u00xx` (lowercase hex),
everything else is literal. -/
def quoteJsonChar (c : Char) : List Char :=
  if c = '"' then ['\\', '"']
  else if c = '\\' then ['\\', '\\']
  else if c.toNat = 8 then ['\\', 'b']
  else if c.toNat = 12 then ['\\', 'f']
  else if c = '\n' then ['\\', 'n']
  else if c = '\r' then ['\\', 'r']
  else if c = '\t' then ['\\', 't']
  else if c.toNat < 0x20 then
    ['\\', 'u', hexDigitChar (c.toNat / 4096 % 16), hexDigitChar (c.toNat / 256 % 16),
     hexDigitChar (c.toNat / 16 % 16), hexDigitChar (c.toNat % 16)]
  else [c]

/-- A JSON string literal: quote, escaped characters, quote. -/
def quoteJsonString (s : String) : List Char :=
  '"' :: (s.data.flatMap quoteJsonChar ++ ['"'])

/-- Decimal numeral worker, structurally recursive on a fuel bound
(any fuel above the number suffices, see `natDecCharsGo_congr`). -/
def natDecCharsGo : Nat → Nat → List Char
  | 0, _ => []
  | fuel + 1, n =>
      if n < 10 then [Char.ofNat ('0'.toNat + n)]
      else natDecCharsGo fuel (n / 10) ++ [Char.ofNat ('0'.toNat + n % 10)]

/-- Decimal numeral of a natural number, most significant digit
first. -/
def natDecChars (n : Nat) : List Char := natDecCharsGo (n + 1) n

/-- Decimal numeral of an integer (`Number::toString` on integral
doubles within the safe range). -/
def intDecChars (i : Int) : List Char :=
  (if i < 0 then ['-'] else []) ++ natDecChars i.natAbs

mutual
/-- `JSON.stringify` (no space argument): the serialized character
list. -/
def jsonWrite : Json → List Char
  | .jnull => ['n', 'u', 'l', 'l']
  | .jbool true => ['t', 'r', 'u', 'e']
  | .jbool false => ['f', 'a', 'l', 's', 'e']
  | .jnum n => intDecChars n
  | .jstr s => quoteJsonString s
  | .jarr items => '[' :: (jsonWriteItems items ++ [']'])
  | .jobj fields => '{' :: (jsonWriteFields fields ++ ['}'])
/-- Array elements, comma separated. -/
def jsonWriteItems : List Json → List Char
  | [] => []
  | [x] => jsonWrite x
  | x :: y :: rest => jsonWrite x ++ ',' :: jsonWriteItems (y :: rest)
/-- Object members `"key":value`, comma separated. -/
def jsonWriteFields : List (String × Json) → List Char
  | [] => []
  | [(k, v)] => quoteJsonString k ++ ':' :: jsonWrite v
  | (k, v) :: f :: rest =>
      quoteJsonString k ++ ':' :: jsonWrite v ++ ',' :: jsonWriteFields (f :: rest)
end

/-- `JSON.stringify` as a string. -/
def jsonStringify (j : Json) : String := String.mk (jsonWrite j)

/-! ## `JSON.parse` -/

/-- JSON insignificant whitespace. -/
def isJsonWs (c : Char) : Bool :=
  c = ' ' || c = '\t' || c = '\n' || c = '\r'

/-- Drop leading JSON whitespace. -/
def dropWs : List Char → List Char
  | c :: rest => if isJsonWs c then dropWs rest else c :: rest
  | [] => []

/-- Value of a hexadecimal digit character, either case. -/
def hexDigitVal (c : Char) : Option Nat :=
  let t := c.toNat
  if 48 ≤ t ∧ t ≤ 57 then some (t - 48)
  else if 97 ≤ t ∧ t ≤ 102 then some (t - 87)
  else if 65 ≤ t ∧ t ≤ 70 then some (t - 55)
  else none

/-- The two-character JSON escapes. -/
def simpleUnescape (c : Char) : Option Char :=
  if c = '"' then some '"'
  else if c = '\\' then some '\\'
  else if c = '/' then some '/'
  else if c = 'b' then some (Char.ofNat 8)
  else if c = 'f' then some (Char.ofNat 12)
  else if c = 'n' then some '\n'
  else if c = 'r' then some '\r'
  else if c = 't' then some '\t'
  else none

/-- Parse a JSON string body after the opening quote.  `\uXXXX` escapes
combine surrogate pairs; a lone surrogate is rejected (a Lean `Char`
cannot carry one — `JSON.parse` would produce a WTF-16 lone surrogate,
which no serialized Lean string contains).  Unescaped control
characters are rejected, as in the JSON grammar.  The scanner is split
into three mutually recursive steps (`parseJsonString`, `parseJsonEsc`,
`parseJsonSurr`); `hex4` reads the four hex digits of a `\uXXXX`
escape. -/
def hex4 (a b c1 d : Char) : Option Nat :=
  (hexDigitVal a).bind fun va =>
  (hexDigitVal b).bind fun vb =>
  (hexDigitVal c1).bind fun vc =>
  (hexDigitVal d).map fun vd => ((va * 16 + vb) * 16 + vc) * 16 + vd

mutual
/-- Body of the string scanner: one character (or escape) per step. -/
def parseJsonString (acc : List Char) : List Char → Option (String × List Char)
  | [] => none
  | c :: rest =>
      if c = '"' then some (String.mk acc.reverse, rest)
      else if c = '\\' then parseJsonEsc acc rest
      else if c.toNat < 0x20 then none
      else parseJsonString (c :: acc) rest
/-- After a backslash: `\uXXXX` or a two-character escape. -/
def parseJsonEsc (acc : List Char) : List Char → Option (String × List Char)
  | 'u' :: a :: b :: c1 :: d :: r =>
      (match hex4 a b c1 d with
       | some n =>
           if 0xD800 ≤ n && n ≤ 0xDBFF then parseJsonSurr acc n r
           else if 0xDC00 ≤ n && n ≤ 0xDFFF then none
           else parseJsonString (Char.ofNat n :: acc) r
       | none => none)
  | e :: r =>
      (match simpleUnescape e with
       | some ch => parseJsonString (ch :: acc) r
       | none => none)
  | [] => none
/-- After a high surrogate: the mandatory low-surrogate escape. -/
def parseJsonSurr (acc : List Char) (n : Nat) : List Char → Option (String × List Char)
  | '\\' :: 'u' :: a2 :: b2 :: c2 :: d2 :: r2 =>
      (match hex4 a2 b2 c2 d2 with
       | some m =>
           if 0xDC00 ≤ m && m ≤ 0xDFFF then
             parseJsonString
               (Char.ofNat (0x10000 + (n - 0xD800) * 0x400 + (m - 0xDC00)) :: acc) r2
           else none
       | none => none)
  | _ => none
end

/-- Take the maximal run of decimal digits. -/
def takeDecDigits : List Char → List Char × List Char
  | c :: rest =>
      if isDecDigit c then
        let (ds, r) := takeDecDigits rest
        (c :: ds, r)
      else ([], c :: rest)
  | [] => ([], [])

/-- The digit-run part of a JSON number of the integer fragment: a
digit run without a redundant leading zero; a following `.`, `e` or `E`
(a fraction or exponent) falls outside the fragment and is rejected. -/
def parseJsonNumBody (neg : Bool) (cs1 : List Char) : Option (Int × List Char) :=
  let (ds, cs2) := takeDecDigits cs1
  match ds with
  | [] => none
  | '0' :: _ :: _ => none
  | _ =>
      match cs2 with
      | '.' :: _ => none
      | 'e' :: _ => none
      | 'E' :: _ => none
      | r => some ((if neg then -1 else 1) * (digitsToNat ds : Int), r)

/-- Parse a JSON number of the integer fragment: an optional minus,
then the digit run. -/
def parseJsonNumber (cs : List Char) : Option (Int × List Char) :=
  match cs with
  | '-' :: r => parseJsonNumBody true r
  | r => parseJsonNumBody false r

mutual
/-- `JSON.parse`, one value; fuel-structural (any fuel above the
input length suffices). -/
def parseJsonVal : Nat → List Char → Option (Json × List Char)
  | 0, _ => none
  | fuel + 1, cs =>
      match dropWs cs with
      | [] => none
      | c :: r =>
          if c = 'n' then
            match r with
            | 'u' :: 'l' :: 'l' :: r1 => some (.jnull, r1)
            | _ => none
          else if c = 't' then
            match r with
            | 'r' :: 'u' :: 'e' :: r1 => some (.jbool true, r1)
            | _ => none
          else if c = 'f' then
            match r with
            | 'a' :: 'l' :: 's' :: 'e' :: r1 => some (.jbool false, r1)
            | _ => none
          else if c = '"' then
            match parseJsonString [] r with
            | some (s, r1) => some (.jstr s, r1)
            | none => none
          else if c = '[' then
            match dropWs r with
            | ']' :: r1 => some (.jarr [], r1)
            | r1 =>
                match parseJsonItems fuel r1 with
                | some (items, r2) => some (.jarr items, r2)
                | none => none
          else if c = '{' then
            match dropWs r with
            | '}' :: r1 => some (.jobj [], r1)
            | r1 =>
                match parseJsonFields fuel r1 with
                | some (fields, r2) => some (.jobj fields, r2)
                | none => none
          else if c = '-' || isDecDigit c then
            match parseJsonNumber (c :: r) with
            | some (n, r1) => some (.jnum n, r1)
            | none => none
          else none
/-- One-or-more comma-separated array elements, up to `]`. -/
def parseJsonItems : Nat → List Char → Option (List Json × List Char)
  | 0, _ => none
  | fuel + 1, cs =>
      match parseJsonVal fuel cs with
      | none => none
      | some (v, r) =>
          match dropWs r with
          | ',' :: r1 =>
              (match parseJsonItems fuel r1 with
               | some (vs, r2) => some (v :: vs, r2)
               | none => none)
          | ']' :: r1 => some ([v], r1)
          | _ => none
/-- One-or-more comma-separated object members, up to `}`. -/
def parseJsonFields : Nat → List Char → Option (List (String × Json) × List Char)
  | 0, _ => none
  | fuel + 1, cs =>
      match dropWs cs with
      | '"' :: r =>
          (match parseJsonString [] r with
           | none => none
           | some (k, r1) =>
               match dropWs r1 with
               | ':' :: r2 =>
                   (match parseJsonVal fuel r2 with
                    | none => none
                    | some (v, r3) =>
                        match dropWs r3 with
                        | ',' :: r4 =>
                            (match parseJsonFields fuel r4 with
                             | some (fs, r5) => some ((k, v) :: fs, r5)
                             | none => none)
                        | '}' :: r4 => some ([(k, v)], r4)
                        | _ => none)
               | _ => none)
      | _ => none
end

/-- `JSON.parse` on a string: a single value with only whitespace
after it. -/
def jsonParse (s : String) : Option Json :=
  match parseJsonVal (s.data.length + 1) s.data with
  | some (j, r) => if (dropWs r).isEmpty then some j else none
  | none => none

/-! ## `encodeURIComponent`, `decodeURIComponent`, `URLSearchParams`

`encodeURIComponent` leaves `A-Z a-z 0-9 - _ . ! ~ * ' ( )` and
percent-encodes every UTF-8 byte of any other character (uppercase
hex).  `decodeURIComponent` decodes every `%XX` escape, throwing
(`none`) on malformed escapes or invalid UTF-8.  `URLSearchParams`
parses `application/x-www-form-urlencoded`: split on `&`, split each
pair at the first `=`, `+` means space, percent-decode bytewise, decode
UTF-8 with U+FFFD replacement (never throwing; the exact WHATWG
resynchronisation on malformed sequences is approximated — no theorem
below exercises a malformed sequence in this decoder). -/

/-- The unreserved set of `encodeURIComponent` (by code point:
letters, digits, `- _ . ! ~ * ' ( )`). -/
def uriUnreserved (c : Char) : Bool :=
  (65 ≤ c.toNat && c.toNat ≤ 90) || (97 ≤ c.toNat && c.toNat ≤ 122)
    || (48 ≤ c.toNat && c.toNat ≤ 57)
    || c.toNat = 45 || c.toNat = 95 || c.toNat = 46 || c.toNat = 33
    || c.toNat = 126 || c.toNat = 42 || c.toNat = 39 || c.toNat = 40 || c.toNat = 41

/-- The UTF-8 bytes of one code point. -/
def utf8Bytes (c : Char) : List Nat :=
  let n := c.toNat
  if n < 0x80 then [n]
  else if n < 0x800 then [0xC0 + n / 0x40, 0x80 + n % 0x40]
  else if n < 0x10000 then
    [0xE0 + n / 0x1000, 0x80 + n / 0x40 % 0x40, 0x80 + n % 0x40]
  else
    [0xF0 + n / 0x40000, 0x80 + n / 0x1000 % 0x40, 0x80 + n / 0x40 % 0x40,
     0x80 + n % 0x40]

/-- An uppercase hexadecimal digit character. -/
def upperHexChar (n : Nat) : Char :=
  if n < 10 then Char.ofNat ('0'.toNat + n) else Char.ofNat ('A'.toNat + (n - 10))

/-- `%XX` for one byte. -/
def percentByte (b : Nat) : List Char :=
  ['%', upperHexChar (b / 16), upperHexChar (b % 16)]

/-- `encodeURIComponent` on a character list. -/
def encodeUriChars (cs : List Char) : List Char :=
  cs.flatMap fun c =>
    if uriUnreserved c then [c] else (utf8Bytes c).flatMap percentByte

/-- `encodeURIComponent`. -/
def encodeURIComponent (s : String) : String :=
  String.mk (encodeUriChars s.data)

/-! The `decodeURIComponent` body: decode every `%XX` escape run as
UTF-8 (overlong encodings, lone surrogates, out-of-range values and
truncated escapes throw, i.e. `none`); all other characters pass
through. -/
mutual
/-- One step of `decodeURIComponent`: an escape hands over to
`decodeUriPct`, anything else passes through. -/
def decodeUriChars : List Char → Option (List Char)
  | [] => some []
  | c :: rest =>
      if c = '%' then decodeUriPct rest
      else
        match decodeUriChars rest with
        | some out => some (c :: out)
        | none => none
/-- After a `%`: two hex digits, then continuation bytes as demanded
by the UTF-8 lead byte. -/
def decodeUriPct : List Char → Option (List Char)
  | a :: b :: rest =>
      (match hexDigitVal a, hexDigitVal b with
       | some va, some vb =>
           let b0 := va * 16 + vb
           if b0 < 0x80 then
             match decodeUriChars rest with
             | some out => some (Char.ofNat b0 :: out)
             | none => none
           else if 0xC2 ≤ b0 && b0 < 0xE0 then
             match rest with
             | '%' :: a1 :: b1 :: r1 =>
                 (match hexDigitVal a1, hexDigitVal b1 with
                  | some wa, some wb =>
                      let byte1 := wa * 16 + wb
                      if 0x80 ≤ byte1 && byte1 < 0xC0 then
                        match decodeUriChars r1 with
                        | some out =>
                            some (Char.ofNat ((b0 - 0xC0) * 0x40 + (byte1 - 0x80)) :: out)
                        | none => none
                      else none
                  | _, _ => none)
             | _ => none
           else if 0xE0 ≤ b0 && b0 < 0xF0 then
             match rest with
             | '%' :: a1 :: b1 :: '%' :: a2 :: b2 :: r2 =>
                 (match hexDigitVal a1, hexDigitVal b1, hexDigitVal a2, hexDigitVal b2 with
                  | some wa, some wb, some xa, some xb =>
                      let byte1 := wa * 16 + wb
                      let byte2 := xa * 16 + xb
                      let n := (b0 - 0xE0) * 0x1000 + (byte1 - 0x80) * 0x40 + (byte2 - 0x80)
                      if (0x80 ≤ byte1 && byte1 < 0xC0) && (0x80 ≤ byte2 && byte2 < 0xC0)
                          && (0x800 ≤ n) && !(0xD800 ≤ n && n < 0xE000) then
                        match decodeUriChars r2 with
                        | some out => some (Char.ofNat n :: out)
                        | none => none
                      else none
                  | _, _, _, _ => none)
             | _ => none
           else if 0xF0 ≤ b0 && b0 < 0xF5 then
             match rest with
             | '%' :: a1 :: b1 :: '%' :: a2 :: b2 :: '%' :: a3 :: b3 :: r3 =>
                 (match hexDigitVal a1, hexDigitVal b1, hexDigitVal a2, hexDigitVal b2,
                     hexDigitVal a3, hexDigitVal b3 with
                  | some wa, some wb, some xa, some xb, some ya, some yb =>
                      let byte1 := wa * 16 + wb
                      let byte2 := xa * 16 + xb
                      let byte3 := ya * 16 + yb
                      let n := (b0 - 0xF0) * 0x40000 + (byte1 - 0x80) * 0x1000
                        + (byte2 - 0x80) * 0x40 + (byte3 - 0x80)
                      if (0x80 ≤ byte1 && byte1 < 0xC0) && (0x80 ≤ byte2 && byte2 < 0xC0)
                          && (0x80 ≤ byte3 && byte3 < 0xC0)
                          && (0x10000 ≤ n) && (n < 0x110000) then
                        match decodeUriChars r3 with
                        | some out => some (Char.ofNat n :: out)
                        | none => none
                      else none
                  | _, _, _, _, _, _ => none)
             | _ => none
           else none
       | _, _ => none)
  | _ => none
end

/-- `decodeURIComponent` (`none` models the `URIError` throw). -/
def decodeURIComponent (s : String) : Option String :=
  (decodeUriChars s.data).map String.mk

/-- The Unicode replacement character U+FFFD. -/
def replacementChar : Char := Char.ofNat 0xFFFD

/-- Hex digit value of a byte (the ASCII code of `0-9 a-f A-F`). -/
def hexValOfByte (b : Nat) : Option Nat :=
  if 48 ≤ b && b ≤ 57 then some (b - 48)
  else if 97 ≤ b && b ≤ 102 then some (b - 97 + 10)
  else if 65 ≤ b && b ≤ 70 then some (b - 65 + 10)
  else none

/-- `application/x-www-form-urlencoded` percent-decoding on bytes:
`0x25` followed by two hex-digit bytes becomes the byte; anything else
passes through. -/
def pctDecodeBytes : List Nat → List Nat
  | [] => []
  | [b] => [b]
  | [b, h1] => [b, h1]
  | b :: h1 :: h2 :: r2 =>
      if b = 0x25 then
        match hexValOfByte h1, hexValOfByte h2 with
        | some v1, some v2 => (v1 * 16 + v2) :: pctDecodeBytes r2
        | _, _ => b :: pctDecodeBytes (h1 :: h2 :: r2)
      else b :: pctDecodeBytes (h1 :: h2 :: r2)

/-- The continuation byte of a two-byte UTF-8 sequence: the decoded
character and the remaining bytes, or `none` if malformed. -/
def utf8Cont2 (b0 : Nat) : List Nat → Option (Char × List Nat)
  | b1 :: r1 =>
      if 0x80 ≤ b1 && b1 < 0xC0 then
        some (Char.ofNat ((b0 - 0xC0) * 0x40 + (b1 - 0x80)), r1)
      else none
  | _ => none

/-- The continuation bytes of a three-byte UTF-8 sequence. -/
def utf8Cont3 (b0 : Nat) : List Nat → Option (Char × List Nat)
  | b1 :: b2 :: r2 =>
      let n := (b0 - 0xE0) * 0x1000 + (b1 - 0x80) * 0x40 + (b2 - 0x80)
      if (0x80 ≤ b1 && b1 < 0xC0) && (0x80 ≤ b2 && b2 < 0xC0)
          && (0x800 ≤ n) && !(0xD800 ≤ n && n < 0xE000) then
        some (Char.ofNat n, r2)
      else none
  | _ => none

/-- The continuation bytes of a four-byte UTF-8 sequence. -/
def utf8Cont4 (b0 : Nat) : List Nat → Option (Char × List Nat)
  | b1 :: b2 :: b3 :: r3 =>
      let n := (b0 - 0xF0) * 0x40000 + (b1 - 0x80) * 0x1000
        + (b2 - 0x80) * 0x40 + (b3 - 0x80)
      if (0x80 ≤ b1 && b1 < 0xC0) && (0x80 ≤ b2 && b2 < 0xC0)
          && (0x80 ≤ b3 && b3 < 0xC0) && (0x10000 ≤ n) && (n < 0x110000) then
        some (Char.ofNat n, r3)
      else none
  | _ => none

/-- UTF-8 decoding with replacement, structurally recursive on a fuel
bound (any fuel at least the byte count suffices): valid sequences
decode exactly; a malformed lead or continuation byte yields U+FFFD
and decoding resumes at the byte after the lead. -/
def utf8DecodeGo : Nat → List Nat → List Char
  | 0, _ => []
  | fuel + 1, bs =>
      match bs with
      | [] => []
      | b0 :: rest =>
          if b0 < 0x80 then Char.ofNat b0 :: utf8DecodeGo fuel rest
          else if 0xC2 ≤ b0 && b0 < 0xE0 then
            match utf8Cont2 b0 rest with
            | some (c, r) => c :: utf8DecodeGo fuel r
            | none => replacementChar :: utf8DecodeGo fuel rest
          else if 0xE0 ≤ b0 && b0 < 0xF0 then
            match utf8Cont3 b0 rest with
            | some (c, r) => c :: utf8DecodeGo fuel r
            | none => replacementChar :: utf8DecodeGo fuel rest
          else if 0xF0 ≤ b0 && b0 < 0xF5 then
            match utf8Cont4 b0 rest with
            | some (c, r) => c :: utf8DecodeGo fuel r
            | none => replacementChar :: utf8DecodeGo fuel rest
          else replacementChar :: utf8DecodeGo fuel rest

/-- UTF-8 decoding with replacement (total). -/
def utf8DecodeReplace (bs : List Nat) : List Char := utf8DecodeGo bs.length bs

/-- One form-urlencoded token (name or value): `+` means space, then
percent-decode over the UTF-8 bytes, then decode back to characters. -/
def formDecodeToken (cs : List Char) : List Char :=
  let plusConverted := cs.map fun c => if c = '+' then ' ' else c
  utf8DecodeReplace (pctDecodeBytes (plusConverted.flatMap utf8Bytes))

/-- Split on `&` (every occurrence separates; empty pieces appear and
are skipped by the caller, as in the URL standard). -/
def splitAmp : List Char → List (List Char)
  | [] => [[]]
  | '&' :: rest => [] :: splitAmp rest
  | c :: rest =>
      match splitAmp rest with
      | [] => [[c]]
      | p :: ps => (c :: p) :: ps

/-- Split a pair at its first `=`: the name, and the value when an `=`
exists. -/
def breakAtEq : List Char → List Char × Option (List Char)
  | [] => ([], none)
  | '=' :: rest => ([], some rest)
  | c :: rest =>
      let (pre, post) := breakAtEq rest
      (c :: pre, post)

/-- The `URLSearchParams` pair list of a query string (no leading
`?`). -/
def parseQueryPairs (cs : List Char) : List (String × String) :=
  ((splitAmp cs).filter (fun p => !p.isEmpty)).map fun piece =>
    match breakAtEq piece with
    | (k, some v) => (String.mk (formDecodeToken k), String.mk (formDecodeToken v))
    | (k, none) => (String.mk (formDecodeToken k), "")

/-- `new URLSearchParams(search).get(key)`: a leading `?` is dropped,
the first pair with the name wins, absence is `null`. -/
def getSearchParam (search : String) (key : String) : Option String :=
  let cs := match search.data with
    | '?' :: rest => rest
    | rest => rest
  ((parseQueryPairs cs).find? (fun kv => kv.1 == key)).map (·.2)

/-! ## The link codec  (`ExecuteTransactionPage`, `src/unnamed/part_011`
lines 78-114, and the link-creating page) -/

/-- The execution page's URL branch (lines 82-91): read the `data`
query parameter, `decodeURIComponent` it, `JSON.parse` the result; any
throw is caught (`none`; the page then reports a load failure), and an
absent or empty parameter falls back to the local-storage lookup, which
is outside this codec path (`none` here). -/
def pageLoadFromUrl (search : String) : Option Json :=
  match truthyStr (getSearchParam search "data") with
  | some encoded =>
      (match decodeURIComponent encoded with
       | some decoded => jsonParse decoded
       | none => none)
  | none => none

/-- Modelled from the spec: the link-producing side is not present
under `src/` (the in-repo `handleGenerateLink` stores the record and
emits an id-based `/execute/:id` link); §6 of the specification states
the descriptor "is serialized to JSON, URL-encoded, and embedded as a
query parameter (`?data=<urlencoded-json>`)".  `descriptorToJson`
fixes the serialized object layout to the `TransactionDetails`
interface order with absent optional fields omitted, as
`JSON.stringify` does. -/
def abiParameterToJson : AbiParameter → Json
  | .mk name ty comps =>
      .jobj ([("name", Json.jstr name), ("type", Json.jstr ty)]
        ++ (match comps with
            | some cs => [("components", Json.jarr (cs.attach.map fun p => abiParameterToJson p.1))]
            | none => []))
decreasing_by
  have h := List.sizeOf_lt_of_mem p.2
  simp_all
  omega

/-- One ABI entry as a JSON object (optional members omitted when
absent). -/
def abiFunctionToJson (f : AbiFunction) : Json :=
  .jobj ([("name", Json.jstr f.name), ("type", Json.jstr f.type)]
    ++ (match f.stateMutability with
        | some s => [("stateMutability", Json.jstr s)]
        | none => [])
    ++ [("inputs", Json.jarr (f.inputs.map abiParameterToJson))]
    ++ (match f.outputs with
        | some os => [("outputs", Json.jarr (os.map abiParameterToJson))]
        | none => []))

/-- Modelled from the spec: the serialized descriptor object (see
`abiParameterToJson`'s comment). -/
def descriptorToJson (d : TransactionDetails Json) : Json :=
  .jobj ([("contractAddress", Json.jstr d.contractAddress),
          ("abi", Json.jarr (d.abi.map abiFunctionToJson)),
          ("chainId", Json.jnum d.chainId),
          ("rpcUrl", Json.jstr d.rpcUrl),
          ("functionName", Json.jstr d.functionName),
          ("functionParams", Json.jarr d.functionParams)]
    ++ (match d.value with
        | some v => [("value", Json.jstr v)]
        | none => [])
    ++ (match d.email with
        | some e => [("email", Json.jstr e)]
        | none => []))

/-- Modelled from the spec: the `location.search` of a generated
execution link, `?data=<urlencoded-json>`. -/
def makeExecuteSearch (d : TransactionDetails Json) : String :=
  "?data=" ++ encodeURIComponent (jsonStringify (descriptorToJson d))

/-- The whole round trip of claim C5: generate the link for `d`, load
it on the execution page. -/
def urlRoundTrip (d : TransactionDetails Json) : Option Json :=
  pageLoadFromUrl (makeExecuteSearch d)

/-! # Theorems -/

/-- **C1.**  On a `RateLimiter` configured with N = 10 and W = 60000
(the default instance), in any state reachable by any sequence of calls
(the state being the recorded timestamp list): `checkRateLimit()`
returns `true` and records the call time exactly when, after pruning
the timestamps outside the trailing window (at or before `now - W`),
fewer than 10 remain — otherwise it returns `false` recording nothing —
and `getRemainingRequests()` returns `max 0 (10 - count)` where `count`
is the number of recorded timestamps still within the trailing
window. -/
theorem checkRateLimit_contract (st : RateLimiterState) (now : Int) :
    (checkRateLimit defaultRateLimitConfig st now =
      if (pruneWindow defaultRateLimitConfig st now).length < 10 then
        (true, pruneWindow defaultRateLimitConfig st now ++ [now])
      else
        (false, pruneWindow defaultRateLimitConfig st now))
    ∧ (getRemainingRequests defaultRateLimitConfig st now).1
        = max 0 (10 - ((pruneWindow defaultRateLimitConfig st now).length : Int)) := by
  have hmax : defaultRateLimitConfig.maxRequests = 10 := rfl
  constructor
  · by_cases h : (pruneWindow defaultRateLimitConfig st now).length < 10
    · rw [if_pos h]
      have h10 : ¬ (pruneWindow defaultRateLimitConfig st now).length
          ≥ defaultRateLimitConfig.maxRequests := by rw [hmax]; omega
      simp [checkRateLimit, h10]
    · rw [if_neg h]
      have h10 : (pruneWindow defaultRateLimitConfig st now).length
          ≥ defaultRateLimitConfig.maxRequests := by rw [hmax]; omega
      simp [checkRateLimit, h10]
  · simp [getRemainingRequests, hmax]

/-- **C2, counterexample.**  The claim predicts `isValid = true` for
every nonempty bytecode; but the bytecode `"0x6080604052"` (the
standard Solidity dispatcher prelude, which is also the blocklisted
"malicious" pattern) is nonempty and yet rejected.  (The checksum/ICAP
parameters play no role in `validateContractCode`.) -/
theorem validateContractCode_nonempty_rejected :
    "0x6080604052" ≠ "0x" ∧ "0x6080604052" ≠ ""
      ∧ validateContractCode (.ok "0x6080604052")
          = { isValid := false,
              error := some "Potentially malicious contract code detected" } := by
  refine ⟨by decide, by decide, by decide⟩

/-- **C2, amended.**  `validateContractCode` returns `isValid = false`
with the "not deployed" error exactly on the empty bytecode `"0x"`, and
returns `isValid = true` on every nonempty bytecode **that does not
contain the blocklisted pattern** `"0x6080604052"`; bytecode containing
the pattern is rejected as potentially malicious. -/
theorem validateContractCode_amended (code : String) (hne : code ≠ "0x")
    (hpat : jsIncludes code "0x6080604052" = false) :
    validateContractCode (.ok "0x")
        = { isValid := false, error := some "Contract not deployed at this address" }
      ∧ validateContractCode (.ok code) = { isValid := true, error := none } := by
  constructor
  · rfl
  · simp [validateContractCode, hne, maliciousPatterns, hpat]

/-- Witness for `validateContractCode_amended` at the bytecode
`"0x1234"`. -/
theorem validateContractCode_amended_witness :
    validateContractCode (.ok "0x")
        = { isValid := false, error := some "Contract not deployed at this address" }
      ∧ validateContractCode (.ok "0x1234") = { isValid := true, error := none } :=
  validateContractCode_amended "0x1234" (by decide) (by decide)

/-- **C10.**  Saving a transaction and looking up the returned id
yields a record carrying exactly the saved details, description and id
(provided the generated random id is fresh for the store, which is what
`generateTransactionId`'s random token provides); and `getTransaction`
returns `null` for every id that no record of the store carries. -/
theorem saveTransaction_getTransaction_roundtrip {p : Type}
    (store : List (SavedTransaction p)) (genId nowIso : String)
    (details : TransactionDetails p) (descr : Option String)
    (hfresh : ∀ tx ∈ store, tx.id ≠ genId) :
    (getTransaction (saveTransaction store genId nowIso details descr).2
        (saveTransaction store genId nowIso details descr).1
      = some { id := genId, transactionDetails := details,
               createdAt := nowIso, description := descr })
    ∧ ∀ id, (∀ tx ∈ store, tx.id ≠ id) → getTransaction store id = none := by
  constructor
  · have hnone : store.find? (fun tx => tx.id == genId) = none :=
      List.find?_eq_none.mpr (by
        intro tx htx
        simpa using hfresh tx htx)
    simp [saveTransaction, getTransaction, List.find?_append, hnone]
  · intro id hid
    exact List.find?_eq_none.mpr (by
      intro tx htx
      simpa using hid tx htx)

/-- Witness for `saveTransaction_getTransaction_roundtrip`: an empty
store, then one save. -/
theorem saveTransaction_getTransaction_roundtrip_witness :
    (getTransaction
        (saveTransaction ([] : List (SavedTransaction Unit)) "id1" "2024-01-01"
          { contractAddress := "0x0000000000000000000000000000000000000001",
            abi := [], chainId := 1, rpcUrl := "", functionName := "f",
            functionParams := [], value := none, email := none } none).2
        (saveTransaction ([] : List (SavedTransaction Unit)) "id1" "2024-01-01"
          { contractAddress := "0x0000000000000000000000000000000000000001",
            abi := [], chainId := 1, rpcUrl := "", functionName := "f",
            functionParams := [], value := none, email := none } none).1
      = some { id := "id1",
               transactionDetails :=
                 { contractAddress := "0x0000000000000000000000000000000000000001",
                   abi := [], chainId := 1, rpcUrl := "", functionName := "f",
                   functionParams := [], value := none, email := none },
               createdAt := "2024-01-01", description := none })
    ∧ ∀ id, (∀ tx ∈ ([] : List (SavedTransaction Unit)), tx.id ≠ id) →
        getTransaction ([] : List (SavedTransaction Unit)) id = none :=
  saveTransaction_getTransaction_roundtrip [] "id1" "2024-01-01" _ none
    (by intro tx htx; cases htx)

/-- The polling loop invariant: at most `remaining` attempts are made
(at least one when `remaining ≥ 1`), the result is true exactly when
some in-budget attempt has a reporting provider, and the slept delays
are `attempt * 5000` for the attempts before the last one made. -/
theorem verifyLoop_spec (oracle : Nat → String → Bool) (pool : List String) :
    ∀ (remaining attempt : Nat),
      (verifyLoop oracle pool attempt remaining).2.1 ≤ remaining
      ∧ (1 ≤ remaining → 1 ≤ (verifyLoop oracle pool attempt remaining).2.1)
      ∧ ((verifyLoop oracle pool attempt remaining).1 = true ↔
          ∃ i, attempt ≤ i ∧ i < attempt + remaining ∧ pool.any (oracle i) = true)
      ∧ (verifyLoop oracle pool attempt remaining).2.2
          = (List.range' attempt ((verifyLoop oracle pool attempt remaining).2.1 - 1)).map
              (fun k => k * 5000) := by
  intro remaining
  induction remaining with
  | zero =>
      intro attempt
      refine ⟨by simp [verifyLoop], by omega, ?_, by simp [verifyLoop]⟩
      simp [verifyLoop]
      omega
  | succ rem ih =>
      intro attempt
      by_cases hany : pool.any (oracle attempt) = true
      · have hv : verifyLoop oracle pool attempt (rem + 1) = (true, 1, []) := by
          simp [verifyLoop, hany]
        refine ⟨by simp [hv], by simp [hv], ?_, by simp [hv]⟩
        simp only [hv]
        constructor
        · intro _; exact ⟨attempt, le_refl _, by omega, hany⟩
        · intro _; trivial
      · by_cases hrem : rem = 0
        · subst hrem
          have hv : verifyLoop oracle pool attempt 1 = (false, 1, []) := by
            simp [verifyLoop, hany]
          refine ⟨by simp [hv], by simp [hv], ?_, by simp [hv]⟩
          simp only [hv]
          constructor
          · intro h; cases h
          · rintro ⟨i, hi1, hi2, hi3⟩
            have : i = attempt := by omega
            subst this
            exact absurd hi3 hany
        · obtain ⟨ihatt, ihone, ihfound, ihdel⟩ := ih (attempt + 1)
          have hv : verifyLoop oracle pool attempt (rem + 1)
              = ((verifyLoop oracle pool (attempt + 1) rem).1,
                 (verifyLoop oracle pool (attempt + 1) rem).2.1 + 1,
                 attempt * 5000 :: (verifyLoop oracle pool (attempt + 1) rem).2.2) := by
            simp [verifyLoop, hany, hrem]
          refine ⟨by simp [hv]; omega, by simp [hv], ?_, ?_⟩
          · simp only [hv]
            rw [ihfound]
            constructor
            · rintro ⟨i, hi1, hi2, hi3⟩
              exact ⟨i, by omega, by omega, hi3⟩
            · rintro ⟨i, hi1, hi2, hi3⟩
              refine ⟨i, ?_, by omega, hi3⟩
              rcases Nat.eq_or_lt_of_le hi1 with heq | hlt
              · subst heq; exact absurd hi3 hany
              · omega
          · simp only [hv]
            rw [ihdel]
            have h1 : 1 ≤ (verifyLoop oracle pool (attempt + 1) rem).2.1 :=
              ihone (by omega)
            have : (verifyLoop oracle pool (attempt + 1) rem).2.1 + 1 - 1
                = ((verifyLoop oracle pool (attempt + 1) rem).2.1 - 1) + 1 := by omega
            rw [this, List.range'_succ]
            simp [List.map_cons]

/-- **C8.**  For every non-placeholder transaction hash,
`verifyTransactionWithRetry` makes at most 5 polling attempts, each
querying the selected provider and its chain's (deduplicated) fallback
pool in parallel; it returns true exactly when some provider reports
the hash in some in-budget attempt; the inter-attempt delays are the
increasing multiples `attempt * 5000` ms of the fixed 5000 ms base,
each at most 30 seconds.  (The model is a total function, so
termination holds by construction.) -/
theorem verifyTransactionWithRetry_bounded (oracle : Nat → String → Bool)
    (primaryUrl : String) (chainId : Int) (hash : String)
    (h1 : hash ≠ "") (h2 : hash ≠ "email-verification-pending") :
    (verifyTransactionWithRetry oracle primaryUrl chainId hash).2.1 ≤ 5
    ∧ ((verifyTransactionWithRetry oracle primaryUrl chainId hash).1 = true ↔
        ∃ i, 1 ≤ i ∧ i ≤ 5
          ∧ (verifyProviderPool primaryUrl chainId).any (oracle i) = true)
    ∧ (verifyTransactionWithRetry oracle primaryUrl chainId hash).2.2
        = (List.range' 1
            ((verifyTransactionWithRetry oracle primaryUrl chainId hash).2.1 - 1)).map
            (fun k => k * 5000)
    ∧ ∀ d ∈ (verifyTransactionWithRetry oracle primaryUrl chainId hash).2.2,
        5000 ≤ d ∧ d ≤ 30000 ∧ d % 5000 = 0 := by
  obtain ⟨hatt, _, hfound, hdel⟩ :=
    verifyLoop_spec oracle (verifyProviderPool primaryUrl chainId) 5 1
  have hv : verifyTransactionWithRetry oracle primaryUrl chainId hash
      = verifyLoop oracle (verifyProviderPool primaryUrl chainId) 1 5 := by
    simp [verifyTransactionWithRetry, h1, h2]
  refine ⟨by rw [hv]; exact hatt, ?_, by rw [hv]; exact hdel, ?_⟩
  · rw [hv, hfound]
    constructor
    · rintro ⟨i, hi1, hi2, hi3⟩; exact ⟨i, hi1, by omega, hi3⟩
    · rintro ⟨i, hi1, hi2, hi3⟩; exact ⟨i, hi1, by omega, hi3⟩
  · rw [hv, hdel]
    intro d hd
    simp only [List.mem_map, List.mem_range'] at hd
    obtain ⟨k, ⟨hk1, hk2⟩, rfl⟩ := hd
    have hle : (verifyLoop oracle (verifyProviderPool primaryUrl chainId) 1 5).2.1 ≤ 5 :=
      hatt
    refine ⟨by omega, by omega, by omega⟩

/-- Witness for `verifyTransactionWithRetry_bounded`: an oracle whose
providers first report the hash on attempt 3. -/
theorem verifyTransactionWithRetry_bounded_witness :
    (verifyTransactionWithRetry (fun a _ => decide (a = 3)) "u" 137 "0xh").2.1 ≤ 5
    ∧ ((verifyTransactionWithRetry (fun a _ => decide (a = 3)) "u" 137 "0xh").1 = true ↔
        ∃ i, 1 ≤ i ∧ i ≤ 5
          ∧ (verifyProviderPool "u" 137).any ((fun a _ => decide (a = 3)) i) = true)
    ∧ (verifyTransactionWithRetry (fun a _ => decide (a = 3)) "u" 137 "0xh").2.2
        = (List.range' 1
            ((verifyTransactionWithRetry (fun a _ => decide (a = 3)) "u" 137 "0xh").2.1 - 1)).map
            (fun k => k * 5000)
    ∧ ∀ d ∈ (verifyTransactionWithRetry (fun a _ => decide (a = 3)) "u" 137 "0xh").2.2,
        5000 ≤ d ∧ d ≤ 30000 ∧ d % 5000 = 0 :=
  verifyTransactionWithRetry_bounded (fun a _ => decide (a = 3)) "u" 137 "0xh"
    (by decide) (by decide)

/-- Reduction of `executeTx` under the hypotheses that every stage up
to the signing flows passes: connection present, rate limit clear,
valid details, live provider, deployed contract, encodable call, gas
estimated with sufficient balance.  The nonce is the hexlified provider
count, or the `"0x1"` placeholder when the fetch failed. -/
theorem executeTx_reaches_signing {pk : Type} (cks : String → String)
    (icap : String → Option String) (wallet : WalletCtx) (env : ExecEnv)
    (details : TransactionDetails pk) (limiter : RateLimiterState) (now : Int)
    (fromAddr cd : String) (g : Nat)
    (hmk : wallet.metaKeepPresent = true)
    (hacct : truthyStr wallet.accountAddress = some fromAddr)
    (hrate : (pruneWindow defaultRateLimitConfig limiter now).length < 10)
    (hvalid : (validateTransactionDetails cks icap details).isValid = true)
    (hprov : env.providerFound = true)
    (hcode : (validateContractCode env.getCode).isValid = true)
    (henc : env.encodeData = .ok cd)
    (hgas : env.estimateGas = .ok g)
    (hbal : env.balanceOk = true) :
    executeTx cks icap wallet env details limiter now =
      { result := (match truthyStr details.email with
                   | some _ => emailFlow env details.chainId
                   | none => plainFlow env details.chainId).1,
        trace := [Ev.rateCheck, .net .providerProbe, .net .contractCodeFetch,
            .net .gasEstimate, .net .balanceFetch, .net .nonceFetch, .sdk .chainOps]
          ++ (match truthyStr details.email with
              | some _ => emailFlow env details.chainId
              | none => plainFlow env details.chainId).2,
        limiter := pruneWindow defaultRateLimitConfig limiter now ++ [now],
        txParams := some
          { type := 2, toAddr := details.contractAddress, data := cd,
            fromAddr := fromAddr,
            nonce := match env.getNonce with
              | .ok n => hexlifyNat n
              | .error _ => "0x1",
            gas := 21000, chainId := details.chainId, maxFeePerGas := 1000,
            maxPriorityFeePerGas := 999,
            value := (truthyStr details.value).bind parseEtherModel } } := by
  have hcheck : checkRateLimit defaultRateLimitConfig limiter now
      = (true, pruneWindow defaultRateLimitConfig limiter now ++ [now]) := by
    have hne : ¬ (pruneWindow defaultRateLimitConfig limiter now).length
        ≥ defaultRateLimitConfig.maxRequests := by
      have h : defaultRateLimitConfig.maxRequests = 10 := rfl
      rw [h]; omega
    simp [checkRateLimit, hne]
  simp only [executeTx, hmk, hacct, hcheck, hvalid, hprov, hcode, henc, hgas, hbal]
  simp

/-- **C9.**  When an email is supplied and the SDK reports a sent
verification email but returns no transaction hash, `execute` resolves
with the literal placeholder `"email-verification-pending"` and no
verification polling happens on that path; and
`verifyTransactionWithRetry` answers `false` immediately (zero
attempts, no delays) on the empty hash and on the placeholder. -/
theorem emailPending_placeholder_noPolling {pk : Type} (cks : String → String)
    (icap : String → Option String) (wallet : WalletCtx) (env : ExecEnv)
    (details : TransactionDetails pk) (limiter : RateLimiterState) (now : Int)
    (fromAddr cd e : String) (g : Nat) (r : SdkResult)
    (hmk : wallet.metaKeepPresent = true)
    (hacct : truthyStr wallet.accountAddress = some fromAddr)
    (hrate : (pruneWindow defaultRateLimitConfig limiter now).length < 10)
    (hvalid : (validateTransactionDetails cks icap details).isValid = true)
    (hprov : env.providerFound = true)
    (hcode : (validateContractCode env.getCode).isValid = true)
    (henc : env.encodeData = .ok cd)
    (hgas : env.estimateGas = .ok g)
    (hbal : env.balanceOk = true)
    (hemail : truthyStr details.email = some e)
    (hsign : env.emailSign1 = .ok r)
    (hsent : emailWasSent r = true)
    (hhash : hashHashFirst r = none) :
    (executeTx cks icap wallet env details limiter now).result
        = .ok "email-verification-pending"
    ∧ (executeTx cks icap wallet env details limiter now).trace
        = [Ev.rateCheck, .net .providerProbe, .net .contractCodeFetch,
           .net .gasEstimate, .net .balanceFetch, .net .nonceFetch,
           .sdk .chainOps, .sdk .signEmail1]
    ∧ Ev.net .verifyPoll ∉ (executeTx cks icap wallet env details limiter now).trace
    ∧ (∀ (oracle : Nat → String → Bool) (u : String) (cid : Int),
        verifyTransactionWithRetry oracle u cid "" = (false, 0, [])
        ∧ verifyTransactionWithRetry oracle u cid "email-verification-pending"
            = (false, 0, [])) := by
  rw [executeTx_reaches_signing cks icap wallet env details limiter now fromAddr cd g
    hmk hacct hrate hvalid hprov hcode henc hgas hbal]
  have hflow : emailFlow env details.chainId = (.ok placeholderHash, [.sdk .signEmail1]) := by
    simp [emailFlow, hsign, hhash, hsent]
  refine ⟨?_, ?_, ?_, ?_⟩
  · simp [hemail, hflow, placeholderHash]
  · simp [hemail, hflow]
  · simp [hemail, hflow]
  · intro oracle u cid
    exact ⟨rfl, rfl⟩

/-- Witness for `emailPending_placeholder_noPolling` at a concrete
wallet, environment and transaction. -/
theorem emailPending_placeholder_noPolling_witness :
    (executeTx (fun a => a) (fun _ => none)
        { metaKeepPresent := true, accountAddress := some "0xme" }
        { providerFound := true, workingUrl := "https://polygon-rpc.com",
          getCode := .ok "0xdead", estimateGas := .ok 50000, balanceOk := true,
          getNonce := .ok 7, encodeData := .ok "0xc0de",
          emailSign1 := .ok (.jobj none none true none),
          emailSign2 := .ok .jnull, plainSign1 := .ok .jnull,
          plainSign2 := .ok .jnull, plainSend := .ok .jnull,
          verifyFound := fun _ _ => false }
        { contractAddress := "0x00000000000000000000000000000000000000aa",
          abi := [{ name := "transfer", type := "function",
                    stateMutability := none, inputs := [], outputs := none }],
          chainId := 137, rpcUrl := "", functionName := "transfer",
          functionParams := ([] : List Unit), value := none,
          email := some "user@example.com" }
        [] 0).result
      = .ok "email-verification-pending" := by
  have h := emailPending_placeholder_noPolling (fun a => a) (fun _ => none)
    { metaKeepPresent := true, accountAddress := some "0xme" }
    { providerFound := true, workingUrl := "https://polygon-rpc.com",
      getCode := .ok "0xdead", estimateGas := .ok 50000, balanceOk := true,
      getNonce := .ok 7, encodeData := .ok "0xc0de",
      emailSign1 := .ok (.jobj none none true none),
      emailSign2 := .ok .jnull, plainSign1 := .ok .jnull,
      plainSign2 := .ok .jnull, plainSend := .ok .jnull,
      verifyFound := fun _ _ => false }
    { contractAddress := "0x00000000000000000000000000000000000000aa",
      abi := [{ name := "transfer", type := "function",
                stateMutability := none, inputs := [], outputs := none }],
      chainId := 137, rpcUrl := "", functionName := "transfer",
      functionParams := ([] : List Unit), value := none,
      email := some "user@example.com" }
    [] 0 "0xme" "0xc0de" "user@example.com" 50000 (.jobj none none true none)
    rfl rfl (by decide) (by decide) rfl (by decide) rfl rfl rfl rfl rfl
    (by decide) (by decide)
  exact h.1

/-- **C6, counterexample.**  `"cccccccccccccccccccccccccccccccccccccccc"`
is malformed in the claim's sense (40 characters, missing the `"0x"`
prefix), yet `validateTransactionDetails` accepts it — ethers v5
`isAddress` treats the prefix as optional — so neither is `isValid`
false nor is `"Invalid contract address"` reported.  (The identity
checksum instantiation is irrelevant: the all-lowercase address skips
checksum validation.) -/
theorem validateTransactionDetails_missing_prefix_accepted :
    "cccccccccccccccccccccccccccccccccccccccc".data.take 2 ≠ ['0', 'x']
    ∧ "cccccccccccccccccccccccccccccccccccccccc".data.length = 40
    ∧ validateTransactionDetails (fun a => a) (fun _ => none)
        { contractAddress := "cccccccccccccccccccccccccccccccccccccccc",
          abi := [{ name := "transfer", type := "function",
                    stateMutability := none, inputs := [], outputs := none }],
          chainId := 137, rpcUrl := "", functionName := "transfer",
          functionParams := ([] : List Unit), value := none, email := none }
        = { isValid := true, errors := [] } := by
  refine ⟨by decide, by decide, by decide⟩

/-- **C6, amended.**  For every contract address matching neither the
optionally-`0x`-prefixed 40-hex-digit form nor the ICAP form — which
covers every address of wrong length and every address with a non-hex
character, but **not** an unprefixed 40-hex-digit string, which ethers
accepts — `validateTransactionDetails` returns `isValid = false` and
reports `"Invalid contract address"`. -/
theorem validateTransactionDetails_malformed_address {pk : Type}
    (cks : String → String) (icap : String → Option String)
    (d : TransactionDetails pk)
    (hhex : matchesHex40 d.contractAddress.data = false)
    (hicap : matchesIcap d.contractAddress.data = false) :
    (validateTransactionDetails cks icap d).isValid = false
    ∧ "Invalid contract address" ∈ (validateTransactionDetails cks icap d).errors := by
  have haddr : isAddressModel cks icap d.contractAddress = false := by
    simp [isAddressModel, getAddressModel, hhex, hicap]
  constructor
  · simp [validateTransactionDetails, haddr]
  · simp [validateTransactionDetails, haddr]

/-- Witness for `validateTransactionDetails_malformed_address` at the
wrong-length address `"0x12"`. -/
theorem validateTransactionDetails_malformed_address_witness :
    (validateTransactionDetails (fun a => a) (fun _ => none)
        { contractAddress := "0x12", abi := [], chainId := 0, rpcUrl := "",
          functionName := "", functionParams := ([] : List Unit),
          value := none, email := none }).isValid = false
    ∧ "Invalid contract address"
        ∈ (validateTransactionDetails (fun a => a) (fun _ => none)
            { contractAddress := "0x12", abi := [], chainId := 0, rpcUrl := "",
              functionName := "", functionParams := ([] : List Unit),
              value := none, email := none }).errors :=
  validateTransactionDetails_malformed_address (fun a => a) (fun _ => none)
    _ (by decide) (by decide)

/-- **C4.**  The basic hook's signing cascade tries the SDK call
shapes in the fixed order object-form, positional, `sendTransaction`;
the first shape yielding a usable transaction-hash string is returned
and later shapes are not attempted; the errors of throwing shapes are
collected in order, and only when no shape yields a usable hash does
the cascade fail, with the single aggregate message concatenating the
collected errors' texts. -/
theorem signCascade_spec (env : SignEnv) :
    (∀ h, usableObjForm env = some h →
        signCascade env = (.ok h, [.objForm]))
    ∧ (∀ h, usableObjForm env = none → usablePositional env = some h →
        signCascade env = (.ok h, [.objForm, .positional]))
    ∧ (∀ h, usableObjForm env = none → usablePositional env = none →
        usableSendTx env = some h →
        signCascade env = (.ok h, [.objForm, .positional, .sendTx]))
    ∧ (usableObjForm env = none → usablePositional env = none →
        usableSendTx env = none →
        signCascade env =
          (.error (aggregateFailMsg (collectedErrors env)),
           [.objForm, .positional, .sendTx])) := by
  obtain ⟨o1, o2, o3⟩ := env
  refine ⟨?_, ?_, ?_, ?_⟩
  · intro h h1
    cases o1 with
    | error e => simp [usableObjForm] at h1
    | ok r =>
        simp only [usableObjForm] at h1
        simp [signCascade, h1]
  · intro h h1 h2
    cases o2 with
    | error e => simp [usablePositional] at h2
    | ok r =>
        simp only [usablePositional] at h2
        cases o1 with
        | error e1 =>
            simp [signCascade, signFrom2, h2]
        | ok r1 =>
            simp only [usableObjForm] at h1
            simp [signCascade, signFrom2, h1, h2]
  · intro h h1 h2 h3
    cases o3 with
    | error e => simp [usableSendTx] at h3
    | ok r =>
        simp only [usableSendTx] at h3
        cases o1 with
        | error e1 =>
            cases o2 with
            | error e2 => simp [signCascade, signFrom2, signFrom3, h3]
            | ok r2 =>
                simp only [usablePositional] at h2
                simp [signCascade, signFrom2, signFrom3, h2, h3]
        | ok r1 =>
            simp only [usableObjForm] at h1
            cases o2 with
            | error e2 => simp [signCascade, signFrom2, signFrom3, h1, h3]
            | ok r2 =>
                simp only [usablePositional] at h2
                simp [signCascade, signFrom2, signFrom3, h1, h2, h3]
  · intro h1 h2 h3
    cases o1 with
    | error e1 =>
        cases o2 with
        | error e2 =>
            cases o3 with
            | error e3 =>
                simp [signCascade, signFrom2, signFrom3, collectedErrors]
            | ok r3 =>
                simp only [usableSendTx] at h3
                simp [signCascade, signFrom2, signFrom3, collectedErrors, h3]
        | ok r2 =>
            simp only [usablePositional] at h2
            cases o3 with
            | error e3 =>
                simp [signCascade, signFrom2, signFrom3, collectedErrors, h2]
            | ok r3 =>
                simp only [usableSendTx] at h3
                simp [signCascade, signFrom2, signFrom3, collectedErrors, h2, h3]
    | ok r1 =>
        simp only [usableObjForm] at h1
        cases o2 with
        | error e2 =>
            cases o3 with
            | error e3 =>
                simp [signCascade, signFrom2, signFrom3, collectedErrors, h1]
            | ok r3 =>
                simp only [usableSendTx] at h3
                simp [signCascade, signFrom2, signFrom3, collectedErrors, h1, h3]
        | ok r2 =>
            simp only [usablePositional] at h2
            cases o3 with
            | error e3 =>
                simp [signCascade, signFrom2, signFrom3, collectedErrors, h1, h2]
            | ok r3 =>
                simp only [usableSendTx] at h3
                simp [signCascade, signFrom2, signFrom3, collectedErrors, h1, h2, h3]

/-- Witness for `signCascade_spec`: the object form throws, the
positional form succeeds with a hash, `sendTransaction` is never
tried. -/
theorem signCascade_spec_witness :
    signCascade
        { objForm := .error
            ({ isError := true, isObject := true, message := some "boom",
               status := none, code := none, jsonRepr := none,
               strRepr := "Error: boom" } : JsError),
          positional := .ok (.jstr "0xdeadbeef"),
          sendTx := .ok .jnull }
      = (.ok "0xdeadbeef", [.objForm, .positional]) :=
  (signCascade_spec _).2.1 "0xdeadbeef" (by decide) (by decide)

/-- The second email attempt only appends to the carried event list. -/
theorem emailSecond_trace (env : ExecEnv) (cid : Int) (me : Thrown)
    (evs : List Ev) :
    ∃ t, (emailSecond env cid me evs).2 = evs ++ t := by
  unfold emailSecond
  rcases he : env.emailSign2 with e | r
  · exact ⟨[Ev.sdk .signEmail2], rfl⟩
  · rcases hh : hashHashFirst r with _ | h
    · simp only [hh]
      exact ⟨[Ev.sdk .signEmail2], rfl⟩
    · simp only [hh]
      rcases hv : verifyTransactionWithRetry env.verifyFound env.workingUrl cid h
        with ⟨found, att, ds⟩
      simp only [hv]
      cases found
      · refine ⟨[Ev.sdk .signEmail2] ++ verifyEvents att, ?_⟩
        simp
      · refine ⟨[Ev.sdk .signEmail2] ++ verifyEvents att ++ [.monitorSpawn], ?_⟩
        simp

/-- The email flow's trace begins with the first email-path SDK call. -/
theorem emailFlow_starts (env : ExecEnv) (cid : Int) :
    ∃ rest, (emailFlow env cid).2 = Ev.sdk SdkOp.signEmail1 :: rest := by
  unfold emailFlow
  rcases he : env.emailSign1 with e | r
  · obtain ⟨t, ht⟩ := emailSecond_trace env cid (.jsErr e) [.sdk .signEmail1]
    exact ⟨t, ht⟩
  · rcases hh : hashHashFirst r with _ | h
    · simp only [hh]
      cases hs : emailWasSent r
      · obtain ⟨t, ht⟩ := emailSecond_trace env cid (.errMsg unclearResponseMsg)
          [.sdk .signEmail1]
        refine ⟨t, ?_⟩
        simp [hs, ht]
      · refine ⟨[], ?_⟩
        simp [hs]
    · simp only [hh]
      rcases hv : verifyTransactionWithRetry env.verifyFound env.workingUrl cid h
        with ⟨found, att, ds⟩
      simp only [hv]
      cases found
      · obtain ⟨t, ht⟩ := emailSecond_trace env cid
          (.errMsg (if emailWasSent r then emailSentButNotFoundMsg else notBroadcastMsg))
          ([.sdk .signEmail1] ++ verifyEvents att)
        refine ⟨verifyEvents att ++ t, ?_⟩
        simp only [Bool.false_eq_true, if_false, ht]
        simp
      · refine ⟨verifyEvents att ++ [.monitorSpawn], ?_⟩
        simp

/-- The third no-email attempt only appends to the carried event
list. -/
theorem plainStep3_trace (env : ExecEnv) (cid : Int) (errs : List JsError)
    (evs : List Ev) :
    ∃ t, (plainStep3 env cid errs evs).2 = evs ++ t := by
  unfold plainStep3
  rcases he : env.plainSend with e | r
  · cases hs : securityFlagged e
    · simp only [hs]
      exact ⟨[Ev.sdk .sendTxMethod], rfl⟩
    · simp only [hs]
      exact ⟨[Ev.sdk .sendTxMethod], rfl⟩
  · rcases hh : hashStrFirst r with _ | h
    · simp only [hh]
      exact ⟨[Ev.sdk .sendTxMethod], rfl⟩
    · simp only [hh]
      rcases hv : verifyTransactionWithRetry env.verifyFound env.workingUrl cid h
        with ⟨found, att, ds⟩
      simp only [hv]
      cases found
      · refine ⟨[Ev.sdk .sendTxMethod] ++ verifyEvents att, ?_⟩
        by_cases hs : securityFlagged (errorOf notBroadcastMsg) = true <;> simp [hs]
      · refine ⟨[Ev.sdk .sendTxMethod] ++ verifyEvents att ++ [.monitorSpawn], ?_⟩
        simp

/-- The second no-email attempt only appends to the carried event
list. -/
theorem plainStep2_trace (env : ExecEnv) (cid : Int) (errs : List JsError)
    (evs : List Ev) :
    ∃ t, (plainStep2 env cid errs evs).2 = evs ++ t := by
  unfold plainStep2
  rcases he : env.plainSign2 with e | r
  · cases hs : securityFlagged e
    · simp only [hs]
      obtain ⟨t, ht⟩ := plainStep3_trace env cid (errs ++ [e]) (evs ++ [.sdk .signPlain2])
      refine ⟨[Ev.sdk .signPlain2] ++ t, ?_⟩
      simp [ht]
    · simp only [hs]
      exact ⟨[Ev.sdk .signPlain2], rfl⟩
  · rcases hh : hashStrFirst r with _ | h
    · simp only [hh]
      obtain ⟨t, ht⟩ := plainStep3_trace env cid errs (evs ++ [.sdk .signPlain2])
      refine ⟨[Ev.sdk .signPlain2] ++ t, ?_⟩
      simp [ht]
    · simp only [hh]
      rcases hv : verifyTransactionWithRetry env.verifyFound env.workingUrl cid h
        with ⟨found, att, ds⟩
      simp only [hv]
      cases found
      · have hs : securityFlagged (errorOf notBroadcastMsg) = false := by decide
        obtain ⟨t, ht⟩ := plainStep3_trace env cid (errs ++ [errorOf notBroadcastMsg])
          (evs ++ [.sdk .signPlain2] ++ verifyEvents att)
        simp at ht
        refine ⟨[Ev.sdk .signPlain2] ++ verifyEvents att ++ t, ?_⟩
        simp [hs, ht]
      · refine ⟨[Ev.sdk .signPlain2] ++ verifyEvents att ++ [.monitorSpawn], ?_⟩
        simp

/-- The no-email flow's trace begins with the first no-email SDK
call. -/
theorem plainFlow_starts (env : ExecEnv) (cid : Int) :
    ∃ rest, (plainFlow env cid).2 = Ev.sdk SdkOp.signPlain1 :: rest := by
  unfold plainFlow
  rcases he : env.plainSign1 with e | r
  · cases hs : securityFlagged e
    · simp only [hs]
      obtain ⟨t, ht⟩ := plainStep2_trace env cid [e] [.sdk .signPlain1]
      exact ⟨t, ht⟩
    · simp only [hs]
      exact ⟨[], rfl⟩
  · rcases hh : hashTxFirst r with _ | h
    · simp only [hh]
      obtain ⟨t, ht⟩ := plainStep2_trace env cid [] [.sdk .signPlain1]
      exact ⟨t, ht⟩
    · simp only [hh]
      rcases hv : verifyTransactionWithRetry env.verifyFound env.workingUrl cid h
        with ⟨found, att, ds⟩
      simp only [hv]
      cases found
      · have hs : securityFlagged (errorOf notBroadcastMsg) = false := by decide
        obtain ⟨t, ht⟩ := plainStep2_trace env cid [errorOf notBroadcastMsg]
          ([.sdk .signPlain1] ++ verifyEvents att)
        simp at ht
        refine ⟨verifyEvents att ++ t, ?_⟩
        simp [hs, ht]
      · exact ⟨verifyEvents att ++ [.monitorSpawn], by simp⟩


/-- **C7.**  When the nonce fetch fails during `execute` (all earlier
stages passing), execution does not abort: the transaction object is
assembled with the fixed placeholder nonce `"0x1"` and submission
proceeds to the signing flow (whose first SDK call appears in the
trace). -/
theorem execute_nonce_fallback {pk : Type} (cks : String → String)
    (icap : String → Option String) (wallet : WalletCtx) (env : ExecEnv)
    (details : TransactionDetails pk) (limiter : RateLimiterState) (now : Int)
    (fromAddr cd : String) (g : Nat)
    (hmk : wallet.metaKeepPresent = true)
    (hacct : truthyStr wallet.accountAddress = some fromAddr)
    (hrate : (pruneWindow defaultRateLimitConfig limiter now).length < 10)
    (hvalid : (validateTransactionDetails cks icap details).isValid = true)
    (hprov : env.providerFound = true)
    (hcode : (validateContractCode env.getCode).isValid = true)
    (henc : env.encodeData = .ok cd)
    (hgas : env.estimateGas = .ok g)
    (hbal : env.balanceOk = true)
    (hnonce : env.getNonce = .error ()) :
    (∃ tp, (executeTx cks icap wallet env details limiter now).txParams = some tp
      ∧ tp.nonce = "0x1")
    ∧ (Ev.sdk SdkOp.signEmail1 ∈ (executeTx cks icap wallet env details limiter now).trace
        ∨ Ev.sdk SdkOp.signPlain1 ∈ (executeTx cks icap wallet env details limiter now).trace) := by
  rw [executeTx_reaches_signing cks icap wallet env details limiter now fromAddr cd g
    hmk hacct hrate hvalid hprov hcode henc hgas hbal]
  constructor
  · exact ⟨_, rfl, by simp [hnonce]⟩
  · cases hemail : truthyStr details.email with
    | some e =>
        left
        obtain ⟨rest, hrest⟩ := emailFlow_starts env details.chainId
        simp [hemail, hrest]
    | none =>
        right
        obtain ⟨rest, hrest⟩ := plainFlow_starts env details.chainId
        simp [hemail, hrest]

/-- Witness for `execute_nonce_fallback` at a concrete wallet,
environment (failing nonce fetch) and transaction. -/
theorem execute_nonce_fallback_witness :
    (∃ tp, (executeTx (fun a => a) (fun _ => none)
        { metaKeepPresent := true, accountAddress := some "0xme" }
        { providerFound := true, workingUrl := "https://polygon-rpc.com",
          getCode := .ok "0xdead", estimateGas := .ok 50000, balanceOk := true,
          getNonce := .error (), encodeData := .ok "0xc0de",
          emailSign1 := .ok .jnull, emailSign2 := .ok .jnull,
          plainSign1 := .ok .jnull, plainSign2 := .ok .jnull,
          plainSend := .ok .jnull, verifyFound := fun _ _ => false }
        { contractAddress := "0x00000000000000000000000000000000000000aa",
          abi := [{ name := "transfer", type := "function",
                    stateMutability := none, inputs := [], outputs := none }],
          chainId := 137, rpcUrl := "", functionName := "transfer",
          functionParams := ([] : List Unit), value := none, email := none }
        [] 0).txParams = some tp ∧ tp.nonce = "0x1")
    ∧ (Ev.sdk SdkOp.signEmail1 ∈ (executeTx (fun a => a) (fun _ => none)
        { metaKeepPresent := true, accountAddress := some "0xme" }
        { providerFound := true, workingUrl := "https://polygon-rpc.com",
          getCode := .ok "0xdead", estimateGas := .ok 50000, balanceOk := true,
          getNonce := .error (), encodeData := .ok "0xc0de",
          emailSign1 := .ok .jnull, emailSign2 := .ok .jnull,
          plainSign1 := .ok .jnull, plainSign2 := .ok .jnull,
          plainSend := .ok .jnull, verifyFound := fun _ _ => false }
        { contractAddress := "0x00000000000000000000000000000000000000aa",
          abi := [{ name := "transfer", type := "function",
                    stateMutability := none, inputs := [], outputs := none }],
          chainId := 137, rpcUrl := "", functionName := "transfer",
          functionParams := ([] : List Unit), value := none, email := none }
        [] 0).trace
      ∨ Ev.sdk SdkOp.signPlain1 ∈ (executeTx (fun a => a) (fun _ => none)
        { metaKeepPresent := true, accountAddress := some "0xme" }
        { providerFound := true, workingUrl := "https://polygon-rpc.com",
          getCode := .ok "0xdead", estimateGas := .ok 50000, balanceOk := true,
          getNonce := .error (), encodeData := .ok "0xc0de",
          emailSign1 := .ok .jnull, emailSign2 := .ok .jnull,
          plainSign1 := .ok .jnull, plainSign2 := .ok .jnull,
          plainSend := .ok .jnull, verifyFound := fun _ _ => false }
        { contractAddress := "0x00000000000000000000000000000000000000aa",
          abi := [{ name := "transfer", type := "function",
                    stateMutability := none, inputs := [], outputs := none }],
          chainId := 137, rpcUrl := "", functionName := "transfer",
          functionParams := ([] : List Unit), value := none, email := none }
        [] 0).trace) :=
  execute_nonce_fallback (fun a => a) (fun _ => none)
    { metaKeepPresent := true, accountAddress := some "0xme" }
    { providerFound := true, workingUrl := "https://polygon-rpc.com",
      getCode := .ok "0xdead", estimateGas := .ok 50000, balanceOk := true,
      getNonce := .error (), encodeData := .ok "0xc0de",
      emailSign1 := .ok .jnull, emailSign2 := .ok .jnull,
      plainSign1 := .ok .jnull, plainSign2 := .ok .jnull,
      plainSend := .ok .jnull, verifyFound := fun _ _ => false }
    { contractAddress := "0x00000000000000000000000000000000000000aa",
      abi := [{ name := "transfer", type := "function",
                stateMutability := none, inputs := [], outputs := none }],
      chainId := 137, rpcUrl := "", functionName := "transfer",
      functionParams := ([] : List Unit), value := none, email := none }
    [] 0 "0xme" "0xc0de" 50000
    rfl rfl (by decide) (by decide) rfl (by decide) rfl rfl rfl rfl
/-- Pruning removes nothing when every recorded timestamp is within
the window of `now`. -/
theorem pruneWindow_id (st : RateLimiterState) (now : Int)
    (h : ∀ t ∈ st, now - t < 60000) :
    pruneWindow defaultRateLimitConfig st now = st := by
  apply List.filter_eq_self.mpr
  intro t ht
  have := h t ht
  simp [defaultRateLimitConfig]
  omega

/-- Any number of calls that fit the budget all pass, and all their
timestamps accumulate, when all times (previous and new) lie within one
window span. -/
theorem runRateLimitCalls_fill :
    ∀ (ts : List Int) (st : RateLimiterState),
      (∀ a b, a ∈ st ++ ts → b ∈ st ++ ts → b - a < 60000) →
      st.length + ts.length ≤ 10 →
      runRateLimitCalls defaultRateLimitConfig st ts
        = (List.replicate ts.length true, st ++ ts) := by
  intro ts
  induction ts with
  | nil =>
      intro st _ _
      simp [runRateLimitCalls]
  | cons t ts ih =>
      intro st hwin hlen
      have hprune : pruneWindow defaultRateLimitConfig st t = st := by
        apply pruneWindow_id
        intro s hs
        exact hwin s t (by simp [hs]) (by simp)
      have hlt : ¬ st.length ≥ defaultRateLimitConfig.maxRequests := by
        have h : defaultRateLimitConfig.maxRequests = 10 := rfl
        rw [h]
        simp at hlen
        omega
      have hcheck : checkRateLimit defaultRateLimitConfig st t = (true, st ++ [t]) := by
        simp [checkRateLimit, hprune, hlt]
      have hwin' : ∀ a b, a ∈ (st ++ [t]) ++ ts → b ∈ (st ++ [t]) ++ ts →
          b - a < 60000 := by
        intro a b ha hb
        apply hwin <;> simp_all
      have hlen' : (st ++ [t]).length + ts.length ≤ 10 := by
        simp at hlen ⊢
        omega
      have := ih (st ++ [t]) hwin' hlen'
      simp [runRateLimitCalls, hcheck, this, List.replicate_succ]

/-- `execute`'s trace is empty (the connection guards threw) or starts
with the rate-limit check: the check precedes every interaction. -/
theorem executeTx_trace_shape {pk : Type} (cks : String → String)
    (icap : String → Option String) (wallet : WalletCtx) (env : ExecEnv)
    (details : TransactionDetails pk) (limiter : RateLimiterState) (now : Int) :
    (executeTx cks icap wallet env details limiter now).trace = []
    ∨ ∃ rest, (executeTx cks icap wallet env details limiter now).trace
        = Ev.rateCheck :: rest := by
  unfold executeTx
  by_cases h1 : wallet.metaKeepPresent
  case neg => simp [h1]
  simp only [h1]
  rcases ha : truthyStr wallet.accountAddress with _ | f
  · simp [ha]
  simp only [ha]
  rcases hc : checkRateLimit defaultRateLimitConfig limiter now with ⟨allowed, lim⟩
  simp only [hc]
  cases allowed
  · simp
  simp only [Bool.not_true, Bool.false_eq_true, if_false]
  by_cases hv : (validateTransactionDetails cks icap details).isValid
  case neg => simp [hv]
  simp only [hv]
  by_cases hp : env.providerFound
  case neg => simp [hp]
  simp only [hp]
  by_cases hcv : (validateContractCode env.getCode).isValid
  case neg => simp [hcv]
  simp only [hcv]
  rcases he : env.encodeData with m | cd
  · simp [he]
  simp only [he]
  rcases hg : env.estimateGas with m | g
  · by_cases hins : jsIncludes m "Insufficient balance"
    · simp [hg, hins]
    · simp [hg, hins]
  · by_cases hb : env.balanceOk
    · simp [hg, hb]
    · simp [hg, hb]

/-- When the wallet guards pass, `execute`'s rate-limiter state update
is exactly `checkRateLimit` on the shared instance. -/
theorem executeTx_limiter_evolution {pk : Type} (cks : String → String)
    (icap : String → Option String) (wallet : WalletCtx) (env : ExecEnv)
    (details : TransactionDetails pk) (limiter : RateLimiterState) (now : Int)
    (fromAddr : String)
    (hmk : wallet.metaKeepPresent = true)
    (hacct : truthyStr wallet.accountAddress = some fromAddr) :
    (executeTx cks icap wallet env details limiter now).limiter
      = (checkRateLimit defaultRateLimitConfig limiter now).2 := by
  unfold executeTx
  simp only [hmk, hacct]
  rcases hc : checkRateLimit defaultRateLimitConfig limiter now with ⟨allowed, lim⟩
  simp only [hc]
  cases allowed
  · simp
  simp only [Bool.not_true, Bool.false_eq_true, if_false]
  by_cases hv : (validateTransactionDetails cks icap details).isValid
  case neg => simp [hv]
  simp only [hv]
  by_cases hp : env.providerFound
  case neg => simp [hp]
  simp only [hp]
  by_cases hcv : (validateContractCode env.getCode).isValid
  case neg => simp [hcv]
  simp only [hcv]
  rcases he : env.encodeData with m | cd
  · simp [he]
  simp only [he]
  rcases hg : env.estimateGas with m | g
  · by_cases hins : jsIncludes m "Insufficient balance"
    · simp [hg, hins]
    · simp [hg, hins]
  · by_cases hb : env.balanceOk
    · simp [hg, hb]
    · simp [hg, hb]

/-- When the wallet guards pass and the pruned window already holds 10
timestamps, `execute` fails with the rate-limit error after the check,
with no further interaction of any kind. -/
theorem executeTx_rate_limited {pk : Type} (cks : String → String)
    (icap : String → Option String) (wallet : WalletCtx) (env : ExecEnv)
    (details : TransactionDetails pk) (limiter : RateLimiterState) (now : Int)
    (fromAddr : String)
    (hmk : wallet.metaKeepPresent = true)
    (hacct : truthyStr wallet.accountAddress = some fromAddr)
    (hfull : 10 ≤ (pruneWindow defaultRateLimitConfig limiter now).length) :
    (executeTx cks icap wallet env details limiter now).result
      = .error "Rate limit exceeded. Maximum 10 transactions per minute allowed."
    ∧ (executeTx cks icap wallet env details limiter now).trace = [Ev.rateCheck] := by
  have hcheck : checkRateLimit defaultRateLimitConfig limiter now
      = (false, pruneWindow defaultRateLimitConfig limiter now) := by
    have hge : (pruneWindow defaultRateLimitConfig limiter now).length
        ≥ defaultRateLimitConfig.maxRequests := by
      have h : defaultRateLimitConfig.maxRequests = 10 := rfl
      rw [h]; omega
    simp [checkRateLimit, hge]
  constructor <;> simp [executeTx, hmk, hacct, hcheck]

/-- `executeSeq` distributes over list append. -/
theorem executeSeq_append {pk : Type} (cks : String → String)
    (icap : String → Option String) (wallet : WalletCtx) (env : ExecEnv)
    (details : TransactionDetails pk) :
    ∀ (ts us : List Int) (st : RateLimiterState),
      executeSeq cks icap wallet env details st (ts ++ us)
        = ((executeSeq cks icap wallet env details st ts).1
            ++ (executeSeq cks icap wallet env details
                  (executeSeq cks icap wallet env details st ts).2 us).1,
           (executeSeq cks icap wallet env details
              (executeSeq cks icap wallet env details st ts).2 us).2) := by
  intro ts
  induction ts with
  | nil => intro us st; simp [executeSeq]
  | cons t ts ih =>
      intro us st
      simp only [List.cons_append, executeSeq, List.append_eq]
      rw [ih]

/-- `executeSeq`'s final limiter state matches the pure rate-limiter
run, when the wallet guards pass. -/
theorem executeSeq_limiter {pk : Type} (cks : String → String)
    (icap : String → Option String) (wallet : WalletCtx) (env : ExecEnv)
    (details : TransactionDetails pk) (fromAddr : String)
    (hmk : wallet.metaKeepPresent = true)
    (hacct : truthyStr wallet.accountAddress = some fromAddr) :
    ∀ (ts : List Int) (st : RateLimiterState),
      (executeSeq cks icap wallet env details st ts).2
        = (runRateLimitCalls defaultRateLimitConfig st ts).2 := by
  intro ts
  induction ts with
  | nil => intro st; simp [executeSeq, runRateLimitCalls]
  | cons t ts ih =>
      intro st
      simp only [executeSeq, runRateLimitCalls]
      rw [executeTx_limiter_evolution cks icap wallet env details st t fromAddr hmk hacct]
      rcases hc : checkRateLimit defaultRateLimitConfig st t with ⟨b, st'⟩
      simp only [ih st']

/-- **C3.**  The rate-limiter check is performed before any network
request in every `execute` run: the trace is empty (a connection guard
threw first) or begins with the check event; when the check denies,
`execute` fails with the rate-limit error and performs no interaction
at all; and in a run of 11 rapid attempts within one 60-second span on
one hook instance, the 11th attempt fails with the rate-limit error
with no network call (no provider probe, validation fetch, gas
estimate, nonce fetch, or SDK call) for that attempt. -/
theorem execute_rateLimit_gating :
    (∀ (pk : Type) (cks : String → String) (icap : String → Option String)
        (wallet : WalletCtx) (env : ExecEnv) (details : TransactionDetails pk)
        (limiter : RateLimiterState) (now : Int),
      (executeTx cks icap wallet env details limiter now).trace = []
      ∨ ∃ rest, (executeTx cks icap wallet env details limiter now).trace
          = Ev.rateCheck :: rest)
    ∧ (∀ (pk : Type) (cks : String → String) (icap : String → Option String)
        (wallet : WalletCtx) (env : ExecEnv) (details : TransactionDetails pk)
        (limiter : RateLimiterState) (now : Int) (fromAddr : String),
      wallet.metaKeepPresent = true →
      truthyStr wallet.accountAddress = some fromAddr →
      10 ≤ (pruneWindow defaultRateLimitConfig limiter now).length →
      (executeTx cks icap wallet env details limiter now).result
          = .error "Rate limit exceeded. Maximum 10 transactions per minute allowed."
        ∧ (executeTx cks icap wallet env details limiter now).trace = [Ev.rateCheck])
    ∧ (∀ (pk : Type) (cks : String → String) (icap : String → Option String)
        (wallet : WalletCtx) (env : ExecEnv) (details : TransactionDetails pk)
        (ts : List Int) (tlast : Int) (fromAddr : String),
      wallet.metaKeepPresent = true →
      truthyStr wallet.accountAddress = some fromAddr →
      ts.length = 10 →
      (∀ a b, a ∈ ts ++ [tlast] → b ∈ ts ++ [tlast] → b - a < 60000) →
      ∃ o, ((executeSeq cks icap wallet env details [] (ts ++ [tlast])).1).getLast?
            = some o
        ∧ o.result = .error "Rate limit exceeded. Maximum 10 transactions per minute allowed."
        ∧ o.trace = [Ev.rateCheck]
        ∧ ∀ e ∈ o.trace, e.isNet = false) := by
  refine ⟨?_, ?_, ?_⟩
  · intro pk cks icap wallet env details limiter now
    exact executeTx_trace_shape cks icap wallet env details limiter now
  · intro pk cks icap wallet env details limiter now fromAddr hmk hacct hfull
    exact executeTx_rate_limited cks icap wallet env details limiter now fromAddr
      hmk hacct hfull
  · intro pk cks icap wallet env details ts tlast fromAddr hmk hacct hlen hwin
    have hfill : runRateLimitCalls defaultRateLimitConfig [] ts
        = (List.replicate ts.length true, [] ++ ts) := by
      apply runRateLimitCalls_fill
      · intro a b ha hb
        apply hwin <;> simp_all
      · simp [hlen]
    have hst : (executeSeq cks icap wallet env details [] ts).2 = ts := by
      rw [executeSeq_limiter cks icap wallet env details fromAddr hmk hacct, hfill]
      simp
    have happ := executeSeq_append cks icap wallet env details ts [tlast] []
    have hprune : pruneWindow defaultRateLimitConfig ts tlast = ts := by
      apply pruneWindow_id
      intro t ht
      exact hwin t tlast (by simp [ht]) (by simp)
    have hfull : 10 ≤ (pruneWindow defaultRateLimitConfig ts tlast).length := by
      rw [hprune, hlen]
    obtain ⟨hres, htr⟩ := executeTx_rate_limited cks icap wallet env details ts tlast
      fromAddr hmk hacct hfull
    refine ⟨executeTx cks icap wallet env details ts tlast, ?_, hres, htr, ?_⟩
    · rw [happ, hst]
      simp [executeSeq]
    · intro e he
      rw [htr] at he
      simp at he
      subst he
      rfl

/-- Witness for `execute_rateLimit_gating` (third part): 11 attempts
at time 0 on a fresh limiter; the 11th is rejected with the rate-limit
error and a network-free trace. -/
theorem execute_rateLimit_gating_witness :
    ∃ o, ((executeSeq (fun a => a) (fun _ => none)
        { metaKeepPresent := true, accountAddress := some "0xme" }
        { providerFound := true, workingUrl := "https://polygon-rpc.com",
          getCode := .ok "0xdead", estimateGas := .ok 50000, balanceOk := true,
          getNonce := .ok 7, encodeData := .ok "0xc0de",
          emailSign1 := .ok .jnull, emailSign2 := .ok .jnull,
          plainSign1 := .ok .jnull, plainSign2 := .ok .jnull,
          plainSend := .ok .jnull, verifyFound := fun _ _ => false }
        { contractAddress := "0x00000000000000000000000000000000000000aa",
          abi := [{ name := "transfer", type := "function",
                    stateMutability := none, inputs := [], outputs := none }],
          chainId := 137, rpcUrl := "", functionName := "transfer",
          functionParams := ([] : List Unit), value := none, email := none }
        [] ([0, 0, 0, 0, 0, 0, 0, 0, 0, 0] ++ [0])).1).getLast? = some o
      ∧ o.result = .error "Rate limit exceeded. Maximum 10 transactions per minute allowed."
      ∧ o.trace = [Ev.rateCheck]
      ∧ ∀ e ∈ o.trace, e.isNet = false :=
  execute_rateLimit_gating.2.2 Unit (fun a => a) (fun _ => none)
    { metaKeepPresent := true, accountAddress := some "0xme" }
    { providerFound := true, workingUrl := "https://polygon-rpc.com",
      getCode := .ok "0xdead", estimateGas := .ok 50000, balanceOk := true,
      getNonce := .ok 7, encodeData := .ok "0xc0de",
      emailSign1 := .ok .jnull, emailSign2 := .ok .jnull,
      plainSign1 := .ok .jnull, plainSign2 := .ok .jnull,
      plainSend := .ok .jnull, verifyFound := fun _ _ => false }
    { contractAddress := "0x00000000000000000000000000000000000000aa",
      abi := [{ name := "transfer", type := "function",
                stateMutability := none, inputs := [], outputs := none }],
      chainId := 137, rpcUrl := "", functionName := "transfer",
      functionParams := ([] : List Unit), value := none, email := none }
    [0, 0, 0, 0, 0, 0, 0, 0, 0, 0] 0 "0xme" rfl rfl (by decide)
    (by intro a b ha hb; simp at ha hb; omega)

/-! ### Character arithmetic bridges -/

/-- Character order is code-point order. -/
theorem charLe_toNat (a b : Char) : a ≤ b ↔ a.toNat ≤ b.toNat := by
  simp [Char.le_def, UInt32.le_def, BitVec.le_def, Char.toNat, UInt32.toNat]

/-- `Char.ofNat` at a valid code point carries it exactly. -/
theorem toNat_ofNat_valid (n : Nat) (h : n.isValidChar) :
    (Char.ofNat n).toNat = n := by
  simp [Char.ofNat, Char.toNat, h, Char.ofNatAux, UInt32.toNat, UInt32.ofNatCore]

/-- Code points below the surrogate range are valid. -/
theorem isValidChar_of_lt (n : Nat) (h : n < 0xd800) : n.isValidChar := Or.inl h

/-- Every character's code point avoids the surrogate range and the
upper bound. -/
theorem char_toNat_valid (c : Char) :
    c.toNat < 0xd800 ∨ (0xdfff < c.toNat ∧ c.toNat < 0x110000) := by
  have := c.valid
  simp [UInt32.isValidChar, Nat.isValidChar] at this
  exact this

/-- Characters with equal code points are equal. -/
theorem char_toNat_inj {a b : Char} (h : a.toNat = b.toNat) : a = b := by
  rw [← Char.ofNat_toNat a, ← Char.ofNat_toNat b, h]

/-! ### Decimal numerals -/

/-- The numeral worker is fuel-irrelevant above the number. -/
theorem natDecCharsGo_congr :
    ∀ (n f1 f2 : Nat), n < f1 → n < f2 →
      natDecCharsGo f1 n = natDecCharsGo f2 n := by
  intro n
  induction n using Nat.strongRecOn with
  | _ n ih =>
    intro f1 f2 h1 h2
    match f1, h1 with
    | f1 + 1, h1 =>
      match f2, h2 with
      | f2 + 1, h2 =>
        simp only [natDecCharsGo]
        by_cases h : n < 10
        · simp [h]
        · simp only [if_neg h]
          rw [ih (n / 10) (by omega) f1 f2 (by omega) (by omega)]

/-- The recurrence of `natDecChars`. -/
theorem natDecChars_unfold (n : Nat) :
    natDecChars n =
      if n < 10 then [Char.ofNat ('0'.toNat + n)]
      else natDecChars (n / 10) ++ [Char.ofNat ('0'.toNat + n % 10)] := by
  show natDecCharsGo (n + 1) n = _
  rw [natDecCharsGo]
  by_cases h : n < 10
  · simp [h]
  · simp only [if_neg h]
    rw [natDecCharsGo_congr (n / 10) n (n / 10 + 1) (by omega) (by omega)]
    rfl

/-- The digit character of `k < 10`: its value and digithood. -/
theorem decDigitChar_spec (k : Nat) (h : k < 10) :
    (Char.ofNat ('0'.toNat + k)).toNat = 48 + k
    ∧ isDecDigit (Char.ofNat ('0'.toNat + k)) = true := by
  have h48 : ('0' : Char).toNat = 48 := by decide
  have hv : ('0'.toNat + k).isValidChar := isValidChar_of_lt _ (by omega)
  have ht : (Char.ofNat ('0'.toNat + k)).toNat = 48 + k := by
    rw [toNat_ofNat_valid _ hv, h48]
  refine ⟨ht, ?_⟩
  simp only [isDecDigit, Bool.and_eq_true, decide_eq_true_eq, charLe_toNat, ht]
  have h57 : ('9' : Char).toNat = 57 := by decide
  rw [h48, h57]
  omega

/-- `natDecChars` emits only digit characters. -/
theorem natDecChars_digits (n : Nat) :
    ∀ c ∈ natDecChars n, isDecDigit c = true := by
  induction n using Nat.strongRecOn with
  | _ n ih =>
    rw [natDecChars_unfold]
    by_cases h : n < 10
    · simp only [if_pos h]
      intro c hc
      rw [List.mem_singleton] at hc
      subst hc
      exact (decDigitChar_spec n h).2
    · simp only [if_neg h]
      intro c hc
      rw [List.mem_append] at hc
      rcases hc with hc | hc
      · exact ih (n / 10) (by omega) c hc
      · rw [List.mem_singleton] at hc
        subst hc
        exact (decDigitChar_spec (n % 10) (by omega)).2

/-- The numeral of a nonzero number starts with a nonzero digit; zero's
numeral is exactly `"0"`. -/
theorem natDecChars_head (n : Nat) :
    (n = 0 → natDecChars n = ['0'])
    ∧ (n ≠ 0 → ∃ c t, natDecChars n = c :: t ∧ isDecDigit c = true ∧ c ≠ '0') := by
  induction n using Nat.strongRecOn with
  | _ n ih =>
    constructor
    · intro h
      subst h
      decide
    · intro hne
      rw [natDecChars_unfold]
      by_cases h : n < 10
      · simp only [if_pos h]
        refine ⟨_, [], rfl, (decDigitChar_spec n h).2, ?_⟩
        intro hc
        have := congrArg Char.toNat hc
        rw [(decDigitChar_spec n h).1] at this
        have h0 : ('0' : Char).toNat = 48 := by decide
        omega
      · simp only [if_neg h]
        have hq : n / 10 ≠ 0 := by omega
        obtain ⟨c, t, hct, hd, hc0⟩ := (ih (n / 10) (by omega)).2 hq
        exact ⟨c, t ++ [Char.ofNat ('0'.toNat + n % 10)], by rw [hct]; simp, hd, hc0⟩

/-- A numeral never has a redundant leading zero. -/
theorem natDecChars_no_leadZero (m : Nat) (x : Char) (xs : List Char)
    (h : natDecChars m = '0' :: x :: xs) : False := by
  by_cases hm : m = 0
  · subst hm
    rw [(natDecChars_head 0).1 rfl] at h
    cases h
  · obtain ⟨c, t, hct, _, hc0⟩ := (natDecChars_head m).2 hm
    rw [hct] at h
    injection h with h1 _
    exact hc0 h1

/-- Folding the digits of a numeral recovers the number. -/
theorem digitsToNat_natDecChars (n : Nat) : digitsToNat (natDecChars n) = n := by
  induction n using Nat.strongRecOn with
  | _ n ih =>
    rw [natDecChars_unfold]
    by_cases h : n < 10
    · simp only [if_pos h, digitsToNat, List.foldl_cons, List.foldl_nil]
      rw [(decDigitChar_spec n h).1]
      have h0 : ('0' : Char).toNat = 48 := by decide
      omega
    · simp only [if_neg h, digitsToNat, List.foldl_append, List.foldl_cons,
        List.foldl_nil]
      have hrec := ih (n / 10) (by omega)
      rw [digitsToNat] at hrec
      rw [hrec, (decDigitChar_spec (n % 10) (by omega)).1]
      have h0 : ('0' : Char).toNat = 48 := by decide
      omega

/-- A remainder that cannot extend a JSON number: empty or starting
with none of digit, `.`, `e`, `E`. -/
def jsonNumStop : List Char → Prop
  | [] => True
  | c :: _ => isDecDigit c = false ∧ c ≠ '.' ∧ c ≠ 'e' ∧ c ≠ 'E'

/-- `takeDecDigits` stops immediately at a stopper. -/
theorem takeDecDigits_stop (cs : List Char) (h : jsonNumStop cs) :
    takeDecDigits cs = ([], cs) := by
  cases cs with
  | nil => rfl
  | cons c t =>
      obtain ⟨hd, _, _, _⟩ := h
      simp [takeDecDigits, hd]

/-- `takeDecDigits` consumes exactly a digit run followed by a
non-extending remainder. -/
theorem takeDecDigits_run (ds : List Char) (hds : ∀ c ∈ ds, isDecDigit c = true)
    (rest : List Char) (hrest : takeDecDigits rest = ([], rest)) :
    takeDecDigits (ds ++ rest) = (ds, rest) := by
  induction ds with
  | nil => simpa using hrest
  | cons c t ih =>
      have hc : isDecDigit c = true := hds c (by simp)
      have ht := ih (fun x hx => hds x (by simp [hx]))
      simp [takeDecDigits, hc, ht]

/-- A digit is not a sign, stopper, whitespace or structural
character. -/
theorem decDigit_not_special (c : Char) (h : isDecDigit c = true) :
    c ≠ '-' ∧ c ≠ '.' ∧ c ≠ 'e' ∧ c ≠ 'E' ∧ isJsonWs c = false
    ∧ c ≠ 'n' ∧ c ≠ 't' ∧ c ≠ 'f' ∧ c ≠ '"' ∧ c ≠ '[' ∧ c ≠ '{'
    ∧ c ≠ ']' ∧ c ≠ '}' ∧ c ≠ ',' := by
  have hn : 48 ≤ c.toNat ∧ c.toNat ≤ 57 := by
    simpa only [isDecDigit, Bool.and_eq_true, decide_eq_true_eq, charLe_toNat,
      show ('0' : Char).toNat = 48 from by decide,
      show ('9' : Char).toNat = 57 from by decide] using h
  have hws : isJsonWs c = false := by
    simp only [isJsonWs, Bool.or_eq_false_iff, decide_eq_false_iff_not]
    refine ⟨⟨⟨?_, ?_⟩, ?_⟩, ?_⟩ <;> (intro hc; rw [hc] at hn; exact absurd hn (by decide))
  refine ⟨?_, ?_, ?_, ?_, hws, ?_, ?_, ?_, ?_, ?_, ?_, ?_, ?_, ?_⟩
  all_goals (intro hc; rw [hc] at hn; exact absurd hn (by decide))

/-- `natDecChars` is never empty. -/
theorem natDecChars_ne_nil (n : Nat) : natDecChars n ≠ [] := by
  rw [natDecChars_unfold]
  by_cases h : n < 10 <;> simp [h]

/-- The digit-run parser inverts the numeral printer. -/
theorem parseJsonNumBody_write (neg : Bool) (m : Nat) (rest : List Char)
    (hrest : jsonNumStop rest) :
    parseJsonNumBody neg (natDecChars m ++ rest)
      = some ((if neg then -1 else 1) * (m : Int), rest) := by
  have hstop := takeDecDigits_stop rest hrest
  have hrun := takeDecDigits_run _ (natDecChars_digits m) _ hstop
  rw [parseJsonNumBody]
  simp only [hrun]
  split
  · rename_i heq
    exact absurd heq (natDecChars_ne_nil m)
  · rename_i x xs heq
    exact (natDecChars_no_leadZero m x xs heq).elim
  · split
    · simp [jsonNumStop] at hrest
    · simp [jsonNumStop] at hrest
    · simp [jsonNumStop] at hrest
    · rw [digitsToNat_natDecChars]

/-- A cons headed by anything other than a minus sign takes the
non-negative branch of the number parser. -/
theorem parseJsonNumber_not_minus (c : Char) (hc : c ≠ '-') (l : List Char) :
    parseJsonNumber (c :: l) = parseJsonNumBody false (c :: l) := by
  rw [parseJsonNumber.eq_def]
  split
  · rename_i heq
    injection heq with h1 _
    exact absurd h1 hc
  · rfl

/-- The JSON number parser inverts the integer printer, given a
non-extending remainder. -/
theorem parseJsonNumber_write (i : Int) (rest : List Char)
    (hrest : jsonNumStop rest) :
    parseJsonNumber (intDecChars i ++ rest) = some (i, rest) := by
  by_cases hi : i < 0
  · have harg : intDecChars i ++ rest = '-' :: (natDecChars i.natAbs ++ rest) := by
      simp [intDecChars, hi]
    rw [harg]
    rw [show parseJsonNumber ('-' :: (natDecChars i.natAbs ++ rest))
        = parseJsonNumBody true (natDecChars i.natAbs ++ rest) from rfl]
    rw [parseJsonNumBody_write true i.natAbs rest hrest]
    have hv : ((if (true : Bool) = true then (-1 : Int) else 1) * (i.natAbs : Int)) = i := by
      rw [if_pos rfl]
      omega
    rw [hv]
  · obtain ⟨c, t, hct, hcd⟩ :
        ∃ c t, natDecChars i.natAbs = c :: t ∧ isDecDigit c = true := by
      by_cases hz : i.natAbs = 0
      · rw [hz, (natDecChars_head 0).1 rfl]
        exact ⟨'0', [], rfl, by decide⟩
      · obtain ⟨c, t, hct, hcd, _⟩ := (natDecChars_head _).2 hz
        exact ⟨c, t, hct, hcd⟩
    obtain ⟨hminus, _⟩ := decDigit_not_special c hcd
    have harg : intDecChars i ++ rest = c :: (t ++ rest) := by
      simp [intDecChars, hi, hct]
    rw [harg, parseJsonNumber_not_minus c hminus,
      show c :: (t ++ rest) = natDecChars i.natAbs ++ rest from by rw [hct]; rfl,
      parseJsonNumBody_write false i.natAbs rest hrest]
    have hv : ((if (false : Bool) = true then (-1 : Int) else 1) * (i.natAbs : Int)) = i := by
      rw [if_neg (by decide)]
      omega
    rw [hv]

/-! ### JSON string literals -/

/-- `hexDigitVal` inverts `hexDigitChar` on one hex digit. -/
theorem hexDigitVal_hexDigitChar (k : Nat) (h : k < 16) :
    hexDigitVal (hexDigitChar k) = some k := by
  interval_cases k <;> decide

/-- `dropWs` keeps a non-whitespace head. -/
theorem dropWs_not_ws (c : Char) (h : isJsonWs c = false) (l : List Char) :
    dropWs (c :: l) = c :: l := by
  simp [dropWs, h]

/-- A plain (unescaped, non-control) character steps the string
parser. -/
theorem parseJsonString_plain (c : Char) (hq : c ≠ '"') (hb : c ≠ '\\')
    (hctl : ¬ c.toNat < 0x20) (acc rest : List Char) :
    parseJsonString acc (c :: rest) = parseJsonString (c :: acc) rest := by
  rw [parseJsonString, if_neg hq, if_neg hb, if_neg hctl]

/-- A backslash hands over to the escape scanner. -/
theorem parseJsonString_backslash (acc rest : List Char) :
    parseJsonString acc ('\\' :: rest) = parseJsonEsc acc rest := rfl

/-- The `u` escape arm, exposed as an equation. -/
theorem parseJsonEsc_u (acc : List Char) (a b c1 d : Char) (r : List Char) :
    parseJsonEsc acc ('u' :: a :: b :: c1 :: d :: r)
      = match hex4 a b c1 d with
        | some n =>
            if 0xD800 ≤ n && n ≤ 0xDBFF then parseJsonSurr acc n r
            else if 0xDC00 ≤ n && n ≤ 0xDFFF then none
            else parseJsonString (Char.ofNat n :: acc) r
        | none => none := rfl

/-- `hex4` inverts the four-digit hex rendering of a code unit. -/
theorem hex4_digits (n : Nat) (hn : n < 0x10000) :
    hex4 (hexDigitChar (n / 4096 % 16)) (hexDigitChar (n / 256 % 16))
        (hexDigitChar (n / 16 % 16)) (hexDigitChar (n % 16)) = some n := by
  have e1 := hexDigitVal_hexDigitChar (n / 4096 % 16) (Nat.mod_lt _ (by omega))
  have e2 := hexDigitVal_hexDigitChar (n / 256 % 16) (Nat.mod_lt _ (by omega))
  have e3 := hexDigitVal_hexDigitChar (n / 16 % 16) (Nat.mod_lt _ (by omega))
  have e4 := hexDigitVal_hexDigitChar (n % 16) (Nat.mod_lt _ (by omega))
  rw [hex4, e1, e2, e3, e4]
  simp only [Option.some_bind, Option.map_some]
  show some (((n / 4096 % 16 * 16 + n / 256 % 16) * 16 + n / 16 % 16) * 16 + n % 16) = some n
  exact congrArg some (by omega)

/-- A `\uXXXX` escape of a control character steps the string
parser. -/
theorem parseJsonString_ctrl (n : Nat) (hn : n < 0x20) (acc rest : List Char) :
    parseJsonString acc
      ('\\' :: 'u' :: hexDigitChar (n / 4096 % 16) :: hexDigitChar (n / 256 % 16)
        :: hexDigitChar (n / 16 % 16) :: hexDigitChar (n % 16) :: rest)
      = parseJsonString (Char.ofNat n :: acc) rest := by
  rw [parseJsonString_backslash, parseJsonEsc_u, hex4_digits n (by omega)]
  have h1 : (decide (0xD800 ≤ n) && decide (n ≤ 0xDBFF)) = false := by
    have hx : ¬ (0xD800 ≤ n) := by omega
    simp [hx]
  have h2 : (decide (0xDC00 ≤ n) && decide (n ≤ 0xDFFF)) = false := by
    have hx : ¬ (0xDC00 ≤ n) := by omega
    simp [hx]
  simp only [h1, h2, Bool.false_eq_true, if_false]

/-- One escaped character of the printer steps the string parser. -/
theorem parseJsonString_quote (c : Char) (acc rest : List Char) :
    parseJsonString acc (quoteJsonChar c ++ rest)
      = parseJsonString (c :: acc) rest := by
  by_cases h1 : c = '"'
  · subst h1; rfl
  by_cases h2 : c = '\\'
  · subst h2; rfl
  by_cases h3 : c.toNat = 8
  · have hc : c = Char.ofNat 8 := char_toNat_inj (by rw [h3]; decide)
    subst hc; rfl
  by_cases h4 : c.toNat = 12
  · have hc : c = Char.ofNat 12 := char_toNat_inj (by rw [h4]; decide)
    subst hc; rfl
  by_cases h5 : c = '\n'
  · subst h5; rfl
  by_cases h6 : c = '\r'
  · subst h6; rfl
  by_cases h7 : c = '\t'
  · subst h7; rfl
  by_cases h8 : c.toNat < 0x20
  · have hq : quoteJsonChar c
        = ['\\', 'u', hexDigitChar (c.toNat / 4096 % 16), hexDigitChar (c.toNat / 256 % 16),
           hexDigitChar (c.toNat / 16 % 16), hexDigitChar (c.toNat % 16)] := by
      simp [quoteJsonChar, h1, h2, h3, h4, h5, h6, h7, h8]
    rw [hq, show (['\\', 'u', hexDigitChar (c.toNat / 4096 % 16),
        hexDigitChar (c.toNat / 256 % 16), hexDigitChar (c.toNat / 16 % 16),
        hexDigitChar (c.toNat % 16)] ++ rest)
        = ('\\' :: 'u' :: hexDigitChar (c.toNat / 4096 % 16)
            :: hexDigitChar (c.toNat / 256 % 16) :: hexDigitChar (c.toNat / 16 % 16)
            :: hexDigitChar (c.toNat % 16) :: rest) from rfl,
      parseJsonString_ctrl c.toNat h8, Char.ofNat_toNat]
  · have hq : quoteJsonChar c = [c] := by
      simp [quoteJsonChar, h1, h2, h3, h4, h5, h6, h7, h8]
    rw [hq, show ([c] ++ rest) = c :: rest from rfl,
      parseJsonString_plain c h1 h2 h8]

/-- The string parser inverts the body of the string printer. -/
theorem parseJsonString_flat (s : List Char) :
    ∀ acc rest : List Char,
      parseJsonString acc (s.flatMap quoteJsonChar ++ ('"' :: rest))
        = some (String.mk (acc.reverse ++ s), rest) := by
  induction s with
  | nil => intro acc rest; simp [parseJsonString]
  | cons c t ih =>
      intro acc rest
      rw [show ((c :: t).flatMap quoteJsonChar ++ ('"' :: rest))
          = quoteJsonChar c ++ (t.flatMap quoteJsonChar ++ ('"' :: rest)) from by
        simp [List.flatMap_cons]]
      rw [parseJsonString_quote c acc, ih (c :: acc) rest]
      simp

/-- The string parser inverts the string printer after the opening
quote. -/
theorem parseJsonString_write (s : String) (rest : List Char) :
    parseJsonString [] (s.data.flatMap quoteJsonChar ++ ('"' :: rest))
      = some (s, rest) := by
  rw [parseJsonString_flat s.data [] rest]
  rfl

/-! ### The value parser on serialized output -/

/-- A cons whose head is a stopper satisfies `jsonNumStop`. -/
theorem jsonNumStop_cons (c : Char) (l : List Char) (h1 : isDecDigit c = false)
    (h2 : c ≠ '.') (h3 : c ≠ 'e') (h4 : c ≠ 'E') : jsonNumStop (c :: l) :=
  ⟨h1, h2, h3, h4⟩

/-- The head of a numeral: a minus sign or a digit, in particular no
whitespace, keyword head, quote or bracket. -/
theorem intDecChars_head (n : Int) :
    ∃ c t, intDecChars n = c :: t ∧ (c = '-' || isDecDigit c) = true
      ∧ isJsonWs c = false ∧ c ≠ 'n' ∧ c ≠ 't' ∧ c ≠ 'f' ∧ c ≠ '"'
      ∧ c ≠ '[' ∧ c ≠ '{' ∧ c ≠ ']' ∧ c ≠ '}' := by
  by_cases hn : n < 0
  · refine ⟨'-', natDecChars n.natAbs, by simp [intDecChars, hn], by decide, by decide,
      by decide, by decide, by decide, by decide, by decide, by decide, by decide, by decide⟩
  · obtain ⟨c, t, hct, hcd⟩ :
        ∃ c t, natDecChars n.natAbs = c :: t ∧ isDecDigit c = true := by
      by_cases hz : n.natAbs = 0
      · rw [hz, (natDecChars_head 0).1 rfl]
        exact ⟨'0', [], rfl, by decide⟩
      · obtain ⟨c, t, hct, hcd, _⟩ := (natDecChars_head _).2 hz
        exact ⟨c, t, hct, hcd⟩
    obtain ⟨_, _, _, _, hws, hn1, ht1, hf1, hq1, hl1, hb1, hr1, hcb1, _⟩ :=
      decDigit_not_special c hcd
    exact ⟨c, t, by simp [intDecChars, hn, hct], by simp [hcd], hws, hn1, ht1, hf1, hq1,
      hl1, hb1, hr1, hcb1⟩

/-- Every serialized value starts with a non-whitespace character that
is not a closing bracket. -/
theorem jsonWrite_head (v : Json) :
    ∃ c t, jsonWrite v = c :: t ∧ isJsonWs c = false ∧ c ≠ ']' ∧ c ≠ '}' := by
  cases v with
  | jnull => exact ⟨'n', _, rfl, by decide, by decide, by decide⟩
  | jbool b =>
      cases b
      case false => exact ⟨'f', ['a', 'l', 's', 'e'], rfl, by decide, by decide, by decide⟩
      case true => exact ⟨'t', ['r', 'u', 'e'], rfl, by decide, by decide, by decide⟩
  | jnum n =>
      obtain ⟨c, t, hct, _, hws, _, _, _, _, _, _, hr, hcb⟩ := intDecChars_head n
      exact ⟨c, t, hct, hws, hr, hcb⟩
  | jstr s => exact ⟨'"', _, rfl, by decide, by decide, by decide⟩
  | jarr items => exact ⟨'[', _, rfl, by decide, by decide, by decide⟩
  | jobj fields => exact ⟨'{', _, rfl, by decide, by decide, by decide⟩

/-- What follows the first element in a serialized element list. -/
def jsonItemsTail : List Json → List Char
  | [] => []
  | y :: ys => ',' :: jsonWriteItems (y :: ys)

/-- What follows the first member in a serialized member list. -/
def jsonFieldsTail : List (String × Json) → List Char
  | [] => []
  | f :: fs => ',' :: jsonWriteFields (f :: fs)

/-- A nonempty element list serializes as its first element followed by
a separator-dependent tail. -/
theorem jsonWriteItems_eq (v : Json) (more : List Json) :
    jsonWriteItems (v :: more) = jsonWrite v ++ jsonItemsTail more := by
  cases more with
  | nil => simp [jsonWriteItems, jsonItemsTail]
  | cons y ys => simp [jsonWriteItems, jsonItemsTail]

/-- A nonempty member list serializes as its first key/value pair
followed by a separator-dependent tail. -/
theorem jsonWriteFields_eq (k : String) (val : Json) (more : List (String × Json)) :
    jsonWriteFields ((k, val) :: more)
      = quoteJsonString k ++ ':' :: (jsonWrite val ++ jsonFieldsTail more) := by
  cases more with
  | nil => simp [jsonWriteFields, jsonFieldsTail]
  | cons f fs => simp [jsonWriteFields, jsonFieldsTail]

/-- The string arm of the value parser, exposed as an equation. -/
theorem parseJsonVal_str (fuel : Nat) (X : List Char) :
    parseJsonVal (fuel + 1) ('"' :: X)
      = match parseJsonString [] X with
        | some (s, r1) => some (.jstr s, r1)
        | none => none := rfl

/-- The array arm of the value parser, exposed as an equation. -/
theorem parseJsonVal_arr (fuel : Nat) (X : List Char) :
    parseJsonVal (fuel + 1) ('[' :: X)
      = match dropWs X with
        | ']' :: r1 => some (.jarr [], r1)
        | r1 =>
            match parseJsonItems fuel r1 with
            | some (items, r2) => some (.jarr items, r2)
            | none => none := rfl

/-- The object arm of the value parser, exposed as an equation. -/
theorem parseJsonVal_obj (fuel : Nat) (X : List Char) :
    parseJsonVal (fuel + 1) ('{' :: X)
      = match dropWs X with
        | '}' :: r1 => some (.jobj [], r1)
        | r1 =>
            match parseJsonFields fuel r1 with
            | some (fields, r2) => some (.jobj fields, r2)
            | none => none := rfl

/-- The number arm of the value parser: a head that is a minus sign or
digit (and no keyword/string/bracket head) parses as a number. -/
theorem parseJsonVal_num (fuel : Nat) (c : Char) (r : List Char)
    (hws : isJsonWs c = false) (hn : c ≠ 'n') (ht : c ≠ 't') (hf : c ≠ 'f')
    (hq : c ≠ '"') (hl : c ≠ '[') (hb : c ≠ '{')
    (hd : (c = '-' || isDecDigit c) = true) :
    parseJsonVal (fuel + 1) (c :: r)
      = match parseJsonNumber (c :: r) with
        | some (m, r1) => some (.jnum m, r1)
        | none => none := by
  rw [parseJsonVal, dropWs_not_ws c hws]
  simp only [hn, ht, hf, hq, hl, hb, hd, if_false, if_true, ite_false, ite_true]

/-- `JSON.parse` inverts `JSON.stringify`, mutually over values,
array-element lists, and object-member lists, with fuel exceeding the
serialized length. -/
theorem jsonWrite_parse_rt (fuel : Nat) :
    (∀ v rest, jsonNumStop rest → (jsonWrite v).length + 1 ≤ fuel →
        parseJsonVal fuel (jsonWrite v ++ rest) = some (v, rest))
    ∧ (∀ v more rest,
        (jsonWriteItems (v :: more)).length + 2 ≤ fuel →
        parseJsonItems fuel (jsonWriteItems (v :: more) ++ (']' :: rest))
          = some (v :: more, rest))
    ∧ (∀ k val more rest,
        (jsonWriteFields ((k, val) :: more)).length + 2 ≤ fuel →
        parseJsonFields fuel (jsonWriteFields ((k, val) :: more) ++ ('}' :: rest))
          = some ((k, val) :: more, rest)) := by
  induction fuel using Nat.strongRecOn with
  | _ fuel ih =>
  refine ⟨?_, ?_, ?_⟩
  · intro v rest hstop hfuel
    obtain ⟨c0, t0, hw0, _, _, _⟩ := jsonWrite_head v
    have hlen0 : 1 ≤ (jsonWrite v).length := by rw [hw0]; simp
    cases fuel with
    | zero => omega
    | succ f =>
    cases v with
    | jnull => rfl
    | jbool b => cases b with | true => rfl | false => rfl
    | jstr s =>
        have hshape : jsonWrite (.jstr s) ++ rest
            = '"' :: (s.data.flatMap quoteJsonChar ++ ('"' :: rest)) := by
          simp [jsonWrite, quoteJsonString]
        rw [hshape, parseJsonVal_str, parseJsonString_write]
    | jnum m =>
        obtain ⟨c, t, hct, hcd, hws, hn1, ht1, hf1, hq1, hl1, hb1, _, _⟩ :=
          intDecChars_head m
        have hshape : jsonWrite (.jnum m) ++ rest = c :: (t ++ rest) := by
          simp [jsonWrite, hct]
        rw [hshape, parseJsonVal_num f c _ hws hn1 ht1 hf1 hq1 hl1 hb1 hcd,
          show c :: (t ++ rest) = intDecChars m ++ rest from by rw [hct]; rfl,
          parseJsonNumber_write m rest hstop]
    | jarr items =>
        cases items with
        | nil => rfl
        | cons v0 more =>
            obtain ⟨c, t, hw, hws, hne, _⟩ := jsonWrite_head v0
            have hshape : jsonWrite (.jarr (v0 :: more)) ++ rest
                = '[' :: (jsonWriteItems (v0 :: more) ++ (']' :: rest)) := by
              simp [jsonWrite]
            rw [hshape, parseJsonVal_arr]
            have hshape2 : jsonWriteItems (v0 :: more) ++ (']' :: rest)
                = c :: (t ++ (jsonItemsTail more ++ (']' :: rest))) := by
              rw [jsonWriteItems_eq, hw]
              simp
            rw [hshape2, dropWs_not_ws c hws]
            split
            · rename_i r1 heq
              injection heq with h1 _
              exact absurd h1 hne
            · rw [← hshape2]
              have hlarr : (jsonWrite (.jarr (v0 :: more))).length
                  = (jsonWriteItems (v0 :: more)).length + 2 := by
                simp [jsonWrite]
              rw [(ih f (by omega)).2.1 v0 more rest (by omega)]
    | jobj fields =>
        cases fields with
        | nil => rfl
        | cons kv more =>
            obtain ⟨k, val⟩ := kv
            have hshape : jsonWrite (.jobj ((k, val) :: more)) ++ rest
                = '{' :: (jsonWriteFields ((k, val) :: more) ++ ('}' :: rest)) := by
              simp [jsonWrite]
            rw [hshape, parseJsonVal_obj]
            have hshape2 : jsonWriteFields ((k, val) :: more) ++ ('}' :: rest)
                = '"' :: ((k.data.flatMap quoteJsonChar ++ ['"'])
                    ++ (':' :: (jsonWrite val ++ (jsonFieldsTail more ++ ('}' :: rest))))) := by
              rw [jsonWriteFields_eq]
              simp [quoteJsonString]
            rw [hshape2, dropWs_not_ws '"' (by decide)]
            split
            · rename_i r1 heq
              injection heq with h1 _
              exact absurd h1 (by decide)
            · rw [← hshape2]
              have hlobj : (jsonWrite (.jobj ((k, val) :: more))).length
                  = (jsonWriteFields ((k, val) :: more)).length + 2 := by
                simp [jsonWrite]
              rw [(ih f (by omega)).2.2 k val more rest (by omega)]
  · intro v more rest hfuel
    cases fuel with
    | zero => omega
    | succ g =>
    rw [parseJsonItems]
    cases more with
    | nil =>
        have hlen : (jsonWriteItems [v]).length = (jsonWrite v).length := by
          rw [show jsonWriteItems [v] = jsonWrite v from rfl]
        have harg : jsonWriteItems [v] ++ (']' :: rest) = jsonWrite v ++ (']' :: rest) := by
          rw [show jsonWriteItems [v] = jsonWrite v from rfl]
        rw [harg, (ih g (by omega)).1 v (']' :: rest)
          (jsonNumStop_cons ']' _ (by decide) (by decide) (by decide) (by decide))
          (by omega)]
        rfl
    | cons y ys =>
        have hlen : (jsonWriteItems (v :: y :: ys)).length
            = (jsonWrite v).length + 1 + (jsonWriteItems (y :: ys)).length := by
          rw [jsonWriteItems_eq]
          simp [jsonItemsTail]
          omega
        have harg : jsonWriteItems (v :: y :: ys) ++ (']' :: rest)
            = jsonWrite v ++ (',' :: (jsonWriteItems (y :: ys) ++ (']' :: rest))) := by
          rw [jsonWriteItems_eq]
          simp [jsonItemsTail]
        rw [harg, (ih g (by omega)).1 v (',' :: (jsonWriteItems (y :: ys) ++ (']' :: rest)))
          (jsonNumStop_cons ',' _ (by decide) (by decide) (by decide) (by decide))
          (by omega)]
        simp only [dropWs_not_ws ',' (by decide)]
        rw [(ih g (by omega)).2.1 y ys rest (by omega)]
  · intro k val more rest hfuel
    cases fuel with
    | zero => omega
    | succ g =>
    rw [parseJsonFields]
    have hlen : (jsonWriteFields ((k, val) :: more)).length
        = (quoteJsonString k).length + 1 + (jsonWrite val).length
          + (jsonFieldsTail more).length := by
      rw [jsonWriteFields_eq]
      simp
      omega
    have hqlen : 2 ≤ (quoteJsonString k).length := by
      simp [quoteJsonString]
    cases more with
    | nil =>
        have harg : jsonWriteFields [(k, val)] ++ ('}' :: rest)
            = '"' :: (k.data.flatMap quoteJsonChar
                ++ ('"' :: (':' :: (jsonWrite val ++ ('}' :: rest))))) := by
          rw [jsonWriteFields_eq]
          simp [quoteJsonString, jsonFieldsTail]
        rw [harg, dropWs_not_ws '"' (by decide)]
        simp only [parseJsonString_write k (':' :: (jsonWrite val ++ ('}' :: rest))),
          dropWs_not_ws ':' (by decide)]
        rw [(ih g (by omega)).1 val ('}' :: rest)
          (jsonNumStop_cons '}' _ (by decide) (by decide) (by decide) (by decide))
          (by simp [jsonFieldsTail] at hlen; omega)]
        rfl
    | cons f1 fs =>
        obtain ⟨k2, v2⟩ := f1
        have harg : jsonWriteFields ((k, val) :: (k2, v2) :: fs) ++ ('}' :: rest)
            = '"' :: (k.data.flatMap quoteJsonChar
                ++ ('"' :: (':' :: (jsonWrite val
                    ++ (',' :: (jsonWriteFields ((k2, v2) :: fs) ++ ('}' :: rest))))))) := by
          rw [jsonWriteFields_eq]
          simp [quoteJsonString, jsonFieldsTail]
        rw [harg, dropWs_not_ws '"' (by decide)]
        simp only [parseJsonString_write k
          (':' :: (jsonWrite val ++ (',' :: (jsonWriteFields ((k2, v2) :: fs) ++ ('}' :: rest))))),
          dropWs_not_ws ':' (by decide)]
        rw [(ih g (by omega)).1 val
          (',' :: (jsonWriteFields ((k2, v2) :: fs) ++ ('}' :: rest)))
          (jsonNumStop_cons ',' _ (by decide) (by decide) (by decide) (by decide))
          (by simp [jsonFieldsTail] at hlen; omega)]
        simp only [dropWs_not_ws ',' (by decide)]
        rw [(ih g (by omega)).2.2 k2 v2 fs rest (by simp [jsonFieldsTail] at hlen; omega)]

/-- `JSON.parse` inverts `JSON.stringify`. -/
theorem jsonParse_stringify (j : Json) :
    jsonParse (jsonStringify j) = some j := by
  rw [jsonParse, show (jsonStringify j).data = jsonWrite j from rfl]
  have h := (jsonWrite_parse_rt ((jsonWrite j).length + 1)).1 j [] trivial (by simp)
  rw [List.append_nil] at h
  rw [h]
  rfl

/-! ### The URI component codec -/

/-- Characters with distinct code points are distinct. -/
theorem ne_of_toNat_ne {a b : Char} (h : a.toNat ≠ b.toNat) : a ≠ b :=
  fun he => h (by rw [he])

/-- An unreserved character is ASCII and none of the separator or
escape characters. -/
theorem uriUnreserved_toNat (c : Char) (h : uriUnreserved c = true) :
    c.toNat < 128 ∧ c.toNat ≠ 43 ∧ c.toNat ≠ 38 ∧ c.toNat ≠ 61 ∧ c.toNat ≠ 37 := by
  simp [uriUnreserved] at h
  omega

/-- `upperHexChar` of a digit below 16: its byte value inverts through
`hexValOfByte`, and its code point is a digit or uppercase letter. -/
theorem upperHexChar_spec (k : Nat) (h : k < 16) :
    hexValOfByte (upperHexChar k).toNat = some k
      ∧ ((48 ≤ (upperHexChar k).toNat ∧ (upperHexChar k).toNat ≤ 57)
          ∨ (65 ≤ (upperHexChar k).toNat ∧ (upperHexChar k).toNat ≤ 70)) := by
  interval_cases k <;> exact ⟨by decide, by decide⟩

/-- Every UTF-8 byte is below 256. -/
theorem utf8Bytes_bound (c : Char) : ∀ b ∈ utf8Bytes c, b < 256 := by
  have hv := char_toNat_valid c
  intro b hb
  simp only [utf8Bytes] at hb
  split_ifs at hb <;> simp at hb <;> omega

/-- The UTF-8 encoding of an ASCII character is its single byte. -/
theorem utf8Bytes_ascii (c : Char) (h : c.toNat < 0x80) :
    utf8Bytes c = [c.toNat] := by
  simp [utf8Bytes, h]

/-- UTF-8 encodings are nonempty. -/
theorem utf8Bytes_len (c : Char) : 1 ≤ (utf8Bytes c).length := by
  simp only [utf8Bytes]
  split_ifs <;> simp

/-- Every character emitted by `encodeURIComponent` is ASCII and none
of `+`, `&`, `=`. -/
theorem encodeUriChars_mem (l : List Char) :
    ∀ c ∈ encodeUriChars l, c ≠ '+' ∧ c ≠ '&' ∧ c ≠ '=' ∧ c.toNat < 128 := by
  intro c hc
  simp only [encodeUriChars, List.mem_flatMap] at hc
  obtain ⟨x, _, hcx⟩ := hc
  by_cases hu : uriUnreserved x
  · simp only [hu, if_true, ite_true, List.mem_singleton] at hcx
    subst hcx
    obtain ⟨h128, h43, h38, h61, _⟩ := uriUnreserved_toNat c hu
    exact ⟨ne_of_toNat_ne (by simpa using h43), ne_of_toNat_ne (by simpa using h38),
      ne_of_toNat_ne (by simpa using h61), h128⟩
  · simp only [hu, Bool.false_eq_true, if_false, ite_false] at hcx
    rw [List.mem_flatMap] at hcx
    obtain ⟨b, hbx, hcb⟩ := hcx
    have hb := utf8Bytes_bound x b hbx
    simp only [percentByte, List.mem_cons, List.mem_singleton, List.not_mem_nil,
      or_false] at hcb
    rcases hcb with hcb | hcb | hcb
    · subst hcb
      exact ⟨by decide, by decide, by decide, by decide⟩
    · subst hcb
      obtain ⟨_, hr⟩ := upperHexChar_spec (b / 16) (by omega)
      exact ⟨ne_of_toNat_ne (by simp only [show ('+' : Char).toNat = 43 from rfl]; omega),
        ne_of_toNat_ne (by simp only [show ('&' : Char).toNat = 38 from rfl]; omega),
        ne_of_toNat_ne (by simp only [show ('=' : Char).toNat = 61 from rfl]; omega),
        by omega⟩
    · subst hcb
      obtain ⟨_, hr⟩ := upperHexChar_spec (b % 16) (by omega)
      exact ⟨ne_of_toNat_ne (by simp only [show ('+' : Char).toNat = 43 from rfl]; omega),
        ne_of_toNat_ne (by simp only [show ('&' : Char).toNat = 38 from rfl]; omega),
        ne_of_toNat_ne (by simp only [show ('=' : Char).toNat = 61 from rfl]; omega),
        by omega⟩

/-- A byte below the escape marker passes through the form decoder. -/
theorem pctDecodeBytes_plain (b : Nat) (hb : b ≠ 0x25) (rest : List Nat) :
    pctDecodeBytes (b :: rest) = b :: pctDecodeBytes rest := by
  match rest with
  | [] => rfl
  | [h1] => rfl
  | h1 :: h2 :: r2 => simp [pctDecodeBytes, hb]

/-- A percent escape produced by `percentByte` decodes back to its
byte. -/
theorem pctDecodeBytes_esc (b : Nat) (hb : b < 256) (rest : List Nat) :
    pctDecodeBytes (('%' : Char).toNat :: (upperHexChar (b / 16)).toNat
        :: (upperHexChar (b % 16)).toNat :: rest)
      = b :: pctDecodeBytes rest := by
  obtain ⟨hv1, _⟩ := upperHexChar_spec (b / 16) (by omega)
  obtain ⟨hv2, _⟩ := upperHexChar_spec (b % 16) (by omega)
  have hb2 : b / 16 * 16 + b % 16 = b := by omega
  simp [pctDecodeBytes, hv1, hv2, hb2]

/-- A run of `percentByte` escapes decodes back to its bytes. -/
theorem pctDecodeBytes_pieces (bs : List Nat) (h : ∀ b ∈ bs, b < 256) (R : List Nat) :
    pctDecodeBytes (((bs.flatMap percentByte).map Char.toNat) ++ R)
      = bs ++ pctDecodeBytes R := by
  induction bs with
  | nil => simp
  | cons b bt ih =>
      have hb := h b (by simp)
      rw [show ((b :: bt).flatMap percentByte).map Char.toNat ++ R
          = ('%' : Char).toNat :: (upperHexChar (b / 16)).toNat
            :: (upperHexChar (b % 16)).toNat
            :: ((bt.flatMap percentByte).map Char.toNat ++ R) from by
        simp [percentByte]]
      rw [pctDecodeBytes_esc b hb, ih (fun x hx => h x (by simp [hx]))]
      rfl

/-- One UTF-8 encoded character decodes off the front of the byte
stream. -/
theorem utf8DecodeGo_step (c : Char) (B : List Nat) (f : Nat) :
    utf8DecodeGo (f + 1) (utf8Bytes c ++ B) = c :: utf8DecodeGo f B := by
  have hv := char_toNat_valid c
  by_cases h1 : c.toNat < 0x80
  · rw [utf8Bytes_ascii c h1]
    simp [utf8DecodeGo, h1, Char.ofNat_toNat]
  · by_cases h2 : c.toNat < 0x800
    · have hb : utf8Bytes c = [0xC0 + c.toNat / 0x40, 0x80 + c.toNat % 0x40] := by
        simp [utf8Bytes, h1, h2]
      have hA : ¬ (0xC0 + c.toNat / 0x40 < 0x80) := by omega
      have hB : (0xC2 ≤ 0xC0 + c.toNat / 0x40 && 0xC0 + c.toNat / 0x40 < 0xE0) = true := by
        simp only [Bool.and_eq_true, decide_eq_true_eq]
        omega
      have hC : (0x80 ≤ 0x80 + c.toNat % 0x40 && 0x80 + c.toNat % 0x40 < 0xC0) = true := by
        simp only [Bool.and_eq_true, decide_eq_true_eq]
        omega
      have hD : (0xC0 + c.toNat / 0x40 - 0xC0) * 0x40 + (0x80 + c.toNat % 0x40 - 0x80)
          = c.toNat := by omega
      have hC2 : 128 + c.toNat % 64 < 192 := by omega
      have hD2 : c.toNat / 64 * 64 + c.toNat % 64 = c.toNat := by omega
      rw [hb]
      simp [utf8DecodeGo, utf8Cont2, hA, hB, hC, hC2, hD, hD2, Char.ofNat_toNat]
    · by_cases h3 : c.toNat < 0x10000
      · have hb : utf8Bytes c = [0xE0 + c.toNat / 0x1000,
            0x80 + c.toNat / 0x40 % 0x40, 0x80 + c.toNat % 0x40] := by
          simp [utf8Bytes, h1, h2, h3]
        have hA : ¬ (0xE0 + c.toNat / 0x1000 < 0x80) := by omega
        have hB : ¬ (0xC2 ≤ 0xE0 + c.toNat / 0x1000 && 0xE0 + c.toNat / 0x1000 < 0xE0) = true := by
          simp only [Bool.and_eq_true, decide_eq_true_eq]
          omega
        have hB2 : (0xE0 ≤ 0xE0 + c.toNat / 0x1000 && 0xE0 + c.toNat / 0x1000 < 0xF0) = true := by
          simp only [Bool.and_eq_true, decide_eq_true_eq]
          omega
        have hn : (0xE0 + c.toNat / 0x1000 - 0xE0) * 0x1000
            + (0x80 + c.toNat / 0x40 % 0x40 - 0x80) * 0x40
            + (0x80 + c.toNat % 0x40 - 0x80) = c.toNat := by omega
        have hC : ((0x80 ≤ 0x80 + c.toNat / 0x40 % 0x40 && 0x80 + c.toNat / 0x40 % 0x40 < 0xC0)
            && (0x80 ≤ 0x80 + c.toNat % 0x40 && 0x80 + c.toNat % 0x40 < 0xC0)
            && (0x800 ≤ (0xE0 + c.toNat / 0x1000 - 0xE0) * 0x1000
                + (0x80 + c.toNat / 0x40 % 0x40 - 0x80) * 0x40
                + (0x80 + c.toNat % 0x40 - 0x80))
            && !(0xD800 ≤ (0xE0 + c.toNat / 0x1000 - 0xE0) * 0x1000
                + (0x80 + c.toNat / 0x40 % 0x40 - 0x80) * 0x40
                + (0x80 + c.toNat % 0x40 - 0x80)
              && (0xE0 + c.toNat / 0x1000 - 0xE0) * 0x1000
                + (0x80 + c.toNat / 0x40 % 0x40 - 0x80) * 0x40
                + (0x80 + c.toNat % 0x40 - 0x80) < 0xE000)) = true := by
          rw [hn]
          simp only [Bool.and_eq_true, Bool.not_eq_true', Bool.and_eq_false_iff,
            decide_eq_true_eq, decide_eq_false_iff_not]
          omega
        have p1 : 224 + c.toNat / 4096 < 240 := by omega
        have q1 : c.toNat / 4096 * 4096 + c.toNat / 64 % 64 * 64 + c.toNat % 64
            = c.toNat := by omega
        have q2 : 2048 ≤ c.toNat / 4096 * 4096 + c.toNat / 64 % 64 * 64 + c.toNat % 64 := by
          omega
        have q3 : ¬ (55296 ≤ c.toNat / 4096 * 4096 + c.toNat / 64 % 64 * 64 + c.toNat % 64
            ∧ c.toNat / 4096 * 4096 + c.toNat / 64 % 64 * 64 + c.toNat % 64 < 57344) := by
          omega
        have q4 : 128 + c.toNat / 64 % 64 < 192 := by omega
        have q5 : 128 + c.toNat % 64 < 192 := by omega
        have q7 : 2048 ≤ c.toNat ∧ (c.toNat < 55296 ∨ 57344 ≤ c.toNat) := by omega
        rw [hb]
        simp [utf8DecodeGo, utf8Cont3, hA, hB, hB2, hC, hn, p1, q1, q2, q3, q4, q5, q7,
          Char.ofNat_toNat]
      · have h4 : c.toNat < 0x110000 := by omega
        have hb : utf8Bytes c = [0xF0 + c.toNat / 0x40000,
            0x80 + c.toNat / 0x1000 % 0x40, 0x80 + c.toNat / 0x40 % 0x40,
            0x80 + c.toNat % 0x40] := by
          simp [utf8Bytes, h1, h2, h3]
        have hA : ¬ (0xF0 + c.toNat / 0x40000 < 0x80) := by omega
        have hB : ¬ (0xC2 ≤ 0xF0 + c.toNat / 0x40000 && 0xF0 + c.toNat / 0x40000 < 0xE0) = true := by
          simp only [Bool.and_eq_true, decide_eq_true_eq]
          omega
        have hB2 : ¬ (0xE0 ≤ 0xF0 + c.toNat / 0x40000 && 0xF0 + c.toNat / 0x40000 < 0xF0) = true := by
          simp only [Bool.and_eq_true, decide_eq_true_eq]
          omega
        have hB3 : (0xF0 ≤ 0xF0 + c.toNat / 0x40000 && 0xF0 + c.toNat / 0x40000 < 0xF5) = true := by
          simp only [Bool.and_eq_true, decide_eq_true_eq]
          omega
        have hn : (0xF0 + c.toNat / 0x40000 - 0xF0) * 0x40000
            + (0x80 + c.toNat / 0x1000 % 0x40 - 0x80) * 0x1000
            + (0x80 + c.toNat / 0x40 % 0x40 - 0x80) * 0x40
            + (0x80 + c.toNat % 0x40 - 0x80) = c.toNat := by omega
        have hC : ((0x80 ≤ 0x80 + c.toNat / 0x1000 % 0x40 && 0x80 + c.toNat / 0x1000 % 0x40 < 0xC0)
            && (0x80 ≤ 0x80 + c.toNat / 0x40 % 0x40 && 0x80 + c.toNat / 0x40 % 0x40 < 0xC0)
            && (0x80 ≤ 0x80 + c.toNat % 0x40 && 0x80 + c.toNat % 0x40 < 0xC0)
            && (0x10000 ≤ (0xF0 + c.toNat / 0x40000 - 0xF0) * 0x40000
                + (0x80 + c.toNat / 0x1000 % 0x40 - 0x80) * 0x1000
                + (0x80 + c.toNat / 0x40 % 0x40 - 0x80) * 0x40
                + (0x80 + c.toNat % 0x40 - 0x80))
            && ((0xF0 + c.toNat / 0x40000 - 0xF0) * 0x40000
                + (0x80 + c.toNat / 0x1000 % 0x40 - 0x80) * 0x1000
                + (0x80 + c.toNat / 0x40 % 0x40 - 0x80) * 0x40
                + (0x80 + c.toNat % 0x40 - 0x80) < 0x110000)) = true := by
          rw [hn]
          simp only [Bool.and_eq_true, decide_eq_true_eq]
          omega
        have p1 : 240 + c.toNat / 262144 < 245 := by omega
        have q1 : c.toNat / 262144 * 262144 + c.toNat / 4096 % 64 * 4096
            + c.toNat / 64 % 64 * 64 + c.toNat % 64 = c.toNat := by omega
        have q2 : 65536 ≤ c.toNat / 262144 * 262144 + c.toNat / 4096 % 64 * 4096
            + c.toNat / 64 % 64 * 64 + c.toNat % 64 := by omega
        have q3 : c.toNat / 262144 * 262144 + c.toNat / 4096 % 64 * 4096
            + c.toNat / 64 % 64 * 64 + c.toNat % 64 < 1114112 := by omega
        have q4 : 128 + c.toNat / 4096 % 64 < 192 := by omega
        have q5 : 128 + c.toNat / 64 % 64 < 192 := by omega
        have q6 : 128 + c.toNat % 64 < 192 := by omega
        have q7 : 65536 ≤ c.toNat ∧ c.toNat < 1114112 := by omega
        have q8 : 65536 ≤ c.toNat := by omega
        rw [hb]
        simp [utf8DecodeGo, utf8Cont4, hA, hB, hB2, hB3, hC, hn, p1, q1, q2, q3, q4, q5, q6,
          q7, q8, h4, Char.ofNat_toNat]

/-- UTF-8 decoding inverts UTF-8 encoding, for any sufficient fuel. -/
theorem utf8DecodeGo_enc (l : List Char) :
    ∀ fuel, (l.flatMap utf8Bytes).length ≤ fuel →
      utf8DecodeGo fuel (l.flatMap utf8Bytes) = l := by
  induction l with
  | nil =>
      intro fuel _
      cases fuel <;> rfl
  | cons c t ih =>
      intro fuel hf
      have h1 := utf8Bytes_len c
      simp only [List.flatMap_cons, List.length_append] at hf
      cases fuel with
      | zero => omega
      | succ f =>
          rw [List.flatMap_cons, utf8DecodeGo_step c _ f, ih f (by omega)]

/-- `utf8DecodeReplace` inverts UTF-8 encoding. -/
theorem utf8DecodeReplace_enc (l : List Char) :
    utf8DecodeReplace (l.flatMap utf8Bytes) = l :=
  utf8DecodeGo_enc l _ le_rfl

/-- ASCII-only character lists UTF-8 encode bytewise. -/
theorem flatMap_utf8_ascii (cs : List Char) (h : ∀ c ∈ cs, c.toNat < 128) :
    cs.flatMap utf8Bytes = cs.map Char.toNat := by
  induction cs with
  | nil => rfl
  | cons c t ih =>
      rw [List.flatMap_cons, utf8Bytes_ascii c (h c (by simp)), List.map_cons,
        ih (fun x hx => h x (by simp [hx]))]
      rfl

/-- The plus-to-space conversion fixes `encodeURIComponent` output. -/
theorem encodeUriChars_plusConv (l : List Char) :
    (encodeUriChars l).map (fun c => if c = '+' then ' ' else c) = encodeUriChars l := by
  have h : ∀ c ∈ encodeUriChars l, (fun c => if c = '+' then ' ' else c) c = id c :=
    fun c hc => by simp [(encodeUriChars_mem l c hc).1]
  rw [List.map_congr_left h, List.map_id]

/-- Percent-decoding inverts the `encodeURIComponent` byte image. -/
theorem pctDecodeBytes_enc (l : List Char) (R : List Nat) :
    pctDecodeBytes ((encodeUriChars l).map Char.toNat ++ R)
      = l.flatMap utf8Bytes ++ pctDecodeBytes R := by
  induction l with
  | nil => simp [encodeUriChars]
  | cons c t ih =>
      rw [show encodeUriChars (c :: t)
          = (if uriUnreserved c then [c] else (utf8Bytes c).flatMap percentByte)
            ++ encodeUriChars t from by simp [encodeUriChars, List.flatMap_cons]]
      by_cases hu : uriUnreserved c
      · obtain ⟨h128, _, _, _, h37⟩ := uriUnreserved_toNat c hu
        simp only [hu, if_true, ite_true, List.singleton_append, List.map_cons]
        rw [List.cons_append, pctDecodeBytes_plain c.toNat (by omega) _, ih,
          List.flatMap_cons, utf8Bytes_ascii c h128]
        rfl
      · simp only [hu, Bool.false_eq_true, if_false, ite_false]
        rw [List.map_append, List.append_assoc,
          pctDecodeBytes_pieces (utf8Bytes c) (utf8Bytes_bound c) _, ih,
          List.flatMap_cons, List.append_assoc]

/-- The `URLSearchParams` token decoder inverts `encodeURIComponent`. -/
theorem formDecodeToken_enc (l : List Char) :
    formDecodeToken (encodeUriChars l) = l := by
  rw [formDecodeToken]
  rw [show ((encodeUriChars l).map fun c => if c = '+' then ' ' else c)
      = encodeUriChars l from encodeUriChars_plusConv l]
  rw [flatMap_utf8_ascii _ (fun c hc => (encodeUriChars_mem l c hc).2.2.2)]
  have h := pctDecodeBytes_enc l []
  rw [List.append_nil] at h
  rw [h, show pctDecodeBytes [] = [] from rfl, List.append_nil, utf8DecodeReplace_enc]

/-- `splitAmp` without separators is the whole string. -/
theorem splitAmp_no_amp (l : List Char) (h : ∀ c ∈ l, c ≠ '&') :
    splitAmp l = [l] := by
  induction l with
  | nil => rfl
  | cons c t ih =>
      rw [splitAmp.eq_def]
      split
      · rename_i heq
        exact absurd heq (by simp)
      · rename_i r heq
        injection heq with h1 _
        exact absurd h1 (h c (by simp))
      · rename_i c1 r heq
        injection heq with h1 h2
        subst h1
        subst h2
        rw [ih (fun x hx => h x (by simp [hx]))]

/-- `breakAtEq` splits the `data=` prefix from the value. -/
theorem breakAtEq_data (v : List Char) :
    breakAtEq (['d', 'a', 't', 'a', '='] ++ v) = (['d', 'a', 't', 'a'], some v) := rfl

/-- Reading the `data` parameter back from a generated search string
yields the form-decoded encoded payload. -/
theorem getSearchParam_data (S : String) :
    getSearchParam ("?data=" ++ encodeURIComponent S) "data"
      = some (String.mk (formDecodeToken (encodeUriChars S.data))) := by
  have hdata : ("?data=" ++ encodeURIComponent S).data
      = '?' :: (['d', 'a', 't', 'a', '='] ++ encodeUriChars S.data) := by
    rw [String.data_append]
    rfl
  have hmem : ∀ c ∈ ['d', 'a', 't', 'a', '='] ++ encodeUriChars S.data, c ≠ '&' := by
    intro c hc
    rcases List.mem_append.1 hc with hc | hc
    · simp only [List.mem_cons, List.not_mem_nil, or_false] at hc
      rcases hc with rfl | rfl | rfl | rfl | rfl <;> decide
    · exact (encodeUriChars_mem S.data c hc).2.1
  rw [getSearchParam, hdata]
  simp only [parseQueryPairs, splitAmp_no_amp _ hmem]
  rw [show (List.filter (fun p => !p.isEmpty)
      [['d', 'a', 't', 'a', '='] ++ encodeUriChars S.data]
      = [['d', 'a', 't', 'a', '='] ++ encodeUriChars S.data]) from by
    simp [List.filter]]
  simp only [List.map_cons, List.map_nil, breakAtEq_data]
  rw [show String.mk (formDecodeToken ['d', 'a', 't', 'a']) = "data" from rfl]
  simp [List.find?]

/-- Serialized JSON is never the empty string. -/
theorem jsonStringify_ne_empty (j : Json) : jsonStringify j ≠ "" := by
  obtain ⟨c, t, hw, _, _, _⟩ := jsonWrite_head j
  intro hc
  have hd : (jsonStringify j).data = ("" : String).data := by rw [hc]
  simp [jsonStringify, hw] at hd

/-- `decodeURIComponent` is the identity on percent-free input. -/
theorem decodeUriChars_noPct (l : List Char) (h : '%' ∉ l) :
    decodeUriChars l = some l := by
  induction l with
  | nil => rfl
  | cons c t ih =>
      have hc : c ≠ '%' := fun he => h (by simp [he])
      have ht : '%' ∉ t := fun he => h (by simp [he])
      rw [decodeUriChars]
      simp [hc, ih ht]

/-- **C5, amended.**  When the serialized descriptor contains no `%`
character, generating the `?data=` link and loading it on the
execution page round-trips: the page recovers exactly the serialized
JSON value of the descriptor.  (Without that restriction the claim is
false — see the counterexample — because `URLSearchParams.get` has
already percent-decoded the parameter once before the page calls
`decodeURIComponent` on it a second time.) -/
theorem urlRoundTrip_noPercent (d : TransactionDetails Json)
    (hp : '%' ∉ (jsonStringify (descriptorToJson d)).data) :
    urlRoundTrip d = some (descriptorToJson d) := by
  rw [urlRoundTrip, makeExecuteSearch, pageLoadFromUrl,
    getSearchParam_data (jsonStringify (descriptorToJson d)),
    show String.mk (formDecodeToken
        (encodeUriChars (jsonStringify (descriptorToJson d)).data))
      = jsonStringify (descriptorToJson d) from by
      rw [formDecodeToken_enc]]
  rw [show truthyStr (some (jsonStringify (descriptorToJson d)))
      = some (jsonStringify (descriptorToJson d)) from by
    simp [truthyStr, jsonStringify_ne_empty (descriptorToJson d)]]
  have hdec : decodeURIComponent (jsonStringify (descriptorToJson d))
      = some (jsonStringify (descriptorToJson d)) := by
    rw [decodeURIComponent, decodeUriChars_noPct _ hp]
    rfl
  simp only [hdec, jsonParse_stringify]

/-- A descriptor whose `value` field contains a percent sign: the
seed of the C5 counterexample. -/
def pctDescriptor : TransactionDetails Json :=
  { contractAddress := "0x5FbDB2315678afecb367f032d93F642f64180aa3",
    abi := [{ name := "mint", type := "function", stateMutability := some "nonpayable",
              inputs := [], outputs := none }],
    chainId := 1,
    rpcUrl := "https://rpc.example.org",
    functionName := "mint",
    functionParams := [Json.jstr "100%"],
    value := some "100%",
    email := none }

/-- A percent-free descriptor witnessing the amended C5. -/
def plainDescriptor : TransactionDetails Json :=
  { contractAddress := "0x5FbDB2315678afecb367f032d93F642f64180aa3",
    abi := [{ name := "mint", type := "function", stateMutability := some "nonpayable",
              inputs := [], outputs := none }],
    chainId := 137,
    rpcUrl := "https://rpc.example.org",
    functionName := "mint",
    functionParams := [Json.jstr "an argument", Json.jnum 42],
    value := some "1.5",
    email := some "user@example.org" }

set_option maxRecDepth 20000 in
/-- **C5, counterexample.**  The claim promises a lossless round trip
for every descriptor; but for `pctDescriptor` (whose `value` is
`"100%"`) the execution page fails to load the descriptor at all
(`none`): the `%` of the JSON text survives `encodeURIComponent` as
`%25`, `URLSearchParams.get` decodes it back to `%`, and the page's
second `decodeURIComponent` then throws on the stray `%` escape. -/
theorem urlRoundTrip_pct_fails :
    urlRoundTrip pctDescriptor = none
      ∧ urlRoundTrip pctDescriptor ≠ some (descriptorToJson pctDescriptor) := by
  have h : urlRoundTrip pctDescriptor = none := rfl
  exact ⟨h, by rw [h]; exact fun hc => Option.noConfusion hc⟩

set_option maxRecDepth 20000 in
/-- Witness for `urlRoundTrip_noPercent` at `plainDescriptor`. -/
theorem urlRoundTrip_noPercent_witness :
    '%' ∉ (jsonStringify (descriptorToJson plainDescriptor)).data
      ∧ urlRoundTrip plainDescriptor = some (descriptorToJson plainDescriptor) :=
  ⟨by decide, urlRoundTrip_noPercent plainDescriptor (by decide)⟩

end TxLink
